import Mathlib

/-!
Verification of the grok-code-rs core against its natural-language
specification.  The Rust sources are shallowly embedded: file contents are
`List Char`, the on-disk filesystem is a partial map `String → Option (List
Char)`, fallible Rust functions returning `Result<T, String>` become
`Except String T`, and `serde_json::Value` becomes the inductive `Json`
(floating-point numbers are not needed by any claim and are omitted).
-/

namespace GrokCode

/-! ## Newline normalization (`simple_edit.rs::normalize_newlines`) -/

/-- First stage of `normalize_newlines`: `text.replace("\r\n", "\n")`,
replacing non-overlapping occurrences left to right. -/
def replaceCRLF : List Char → List Char
  | [] => []
  | '\r' :: '\n' :: rest => '\n' :: replaceCRLF rest
  | c :: rest => c :: replaceCRLF rest

/-- Second stage of `normalize_newlines`: `.replace('\r', "\n")` on chars. -/
def replaceCRchar : List Char → List Char :=
  List.map fun c => if c = '\r' then '\n' else c

/-- `normalize_newlines` from `simple_edit.rs`: if the text contains a
carriage return, replace `"\r\n"` by `"\n"` and then every remaining `'\r'`
by `'\n'`; otherwise return the text unchanged. -/
def normalize_newlines (s : List Char) : List Char :=
  if '\r' ∈ s then replaceCRchar (replaceCRLF s) else s

theorem not_mem_replaceCRchar (s : List Char) : '\r' ∉ replaceCRchar s := by
  intro h
  rcases List.mem_map.mp h with ⟨c, _, hc⟩
  by_cases hcr : c = '\r' <;> simp [hcr] at hc

theorem normalize_newlines_no_cr (s : List Char) :
    '\r' ∉ normalize_newlines s := by
  unfold normalize_newlines
  split
  · exact not_mem_replaceCRchar _
  · assumption

/-! ## Substring matching (`simple_edit.rs::exactly_once`) -/

/-- Recursion core for `matchIndicesFrom`, structural in a fuel argument so
that the kernel can evaluate it; every step consumes at least one character
of the haystack, so `hay.length + 1` units of fuel always suffice. -/
def matchIndicesGo (needle : List Char) : Nat → List Char → Nat → List Nat
  | 0, _, _ => []
  | fuel + 1, hay, i =>
    match hay with
    | [] => if needle = [] then [i] else []
    | c :: t =>
      if needle.isPrefixOf (c :: t) then
        if needle = [] then i :: matchIndicesGo needle fuel t (i + 1)
        else i :: matchIndicesGo needle fuel ((c :: t).drop needle.length) (i + needle.length)
      else matchIndicesGo needle fuel t (i + 1)

/-- The list of match start indices produced by Rust's
`haystack.match_indices(needle)`: non-overlapping matches scanned left to
right; the empty needle matches at every position `0..=len`. -/
def matchIndicesFrom (needle hay : List Char) (i : Nat) : List Nat :=
  matchIndicesGo needle (hay.length + 1) hay i

/-- Number of (non-overlapping, left-to-right) occurrences of `needle` in
`hay`, as counted by `match_indices`. -/
def occCount (hay needle : List Char) : Nat :=
  (matchIndicesFrom needle hay 0).length

/-- `exactly_once` from `simple_edit.rs`: the unique match index of `needle`
in `haystack`, `"anchor not found"` if there is none, and
`"anchor ambiguous (found >1)"` if there are at least two. -/
def exactly_once (haystack needle : List Char) : Except String Nat :=
  match matchIndicesFrom needle haystack 0 with
  | [] => .error "anchor not found"
  | [i] => .ok i
  | _ :: _ :: _ => .error "anchor ambiguous (found >1)"

theorem exactly_once_zero {hay needle : List Char} (h : occCount hay needle = 0) :
    exactly_once hay needle = .error "anchor not found" := by
  unfold exactly_once
  unfold occCount at h
  cases hm : matchIndicesFrom needle hay 0 with
  | nil => rfl
  | cons a t => simp [hm] at h

theorem exactly_once_many {hay needle : List Char} (h : 1 < occCount hay needle) :
    exactly_once hay needle = .error "anchor ambiguous (found >1)" := by
  unfold exactly_once
  unfold occCount at h
  cases hm : matchIndicesFrom needle hay 0 with
  | nil => simp [hm] at h
  | cons a t =>
    cases t with
    | nil => simp [hm] at h
    | cons b t' => rfl

theorem exactly_once_ok {hay needle : List Char} (h : occCount hay needle = 1) :
    ∃ i, exactly_once hay needle = .ok i := by
  unfold exactly_once
  unfold occCount at h
  cases hm : matchIndicesFrom needle hay 0 with
  | nil => simp [hm] at h
  | cons a t =>
    cases t with
    | nil => exact ⟨a, rfl⟩
    | cons b t' => simp [hm] at h

theorem exactly_once_isOk_iff (hay needle : List Char) :
    (∃ i, exactly_once hay needle = .ok i) ↔ occCount hay needle = 1 := by
  constructor
  · rintro ⟨i, hi⟩
    unfold exactly_once at hi
    unfold occCount
    cases hm : matchIndicesFrom needle hay 0 with
    | nil => rw [hm] at hi; exact absurd hi (by simp)
    | cons a t =>
      cases t with
      | nil => simp
      | cons b t' => rw [hm] at hi; exact absurd hi (by simp)
  · exact exactly_once_ok

/-- C10 helper: normalized text contains no carriage return, so the guard of
a second normalization pass is false. -/
theorem normalize_newlines_idem (s : List Char) :
    normalize_newlines (normalize_newlines s) = normalize_newlines s := by
  have h := normalize_newlines_no_cr s
  rw [show normalize_newlines (normalize_newlines s) =
        if '\r' ∈ normalize_newlines s then
          replaceCRchar (replaceCRLF (normalize_newlines s))
        else normalize_newlines s from rfl]
  exact if_neg h

/-- C10: `normalize_newlines` is idempotent and its output never contains a
carriage-return character, so all content stored or matched by the edit
planner is carriage-return-free. -/
theorem C10_normalize_newlines_idempotent_and_cr_free (s : List Char) :
    normalize_newlines (normalize_newlines s) = normalize_newlines s ∧
      '\r' ∉ normalize_newlines s :=
  ⟨normalize_newlines_idem s, normalize_newlines_no_cr s⟩

/-! ## JSON values and canonical serialization (`serde_json`)

`serde_json::Value` restricted to what the tool layer produces: null,
booleans, integers, strings, arrays and objects.  Floating-point numbers are
not needed by any claim.  `ser` mirrors `serde_json::to_string` (compact
form, ASCII control characters escaped, non-ASCII characters emitted raw);
`serLen` is the byte length of that serialization, matching Rust's
`json_str.len()`. -/

inductive Json where
  | null
  | bool (b : Bool)
  | num (n : Int)
  | str (s : String)
  | arr (elems : List Json)
  | obj (fields : List (String × Json))

/-- serde's escape for a single character inside a JSON string. -/
def escapeChar (c : Char) : List Char :=
  if c = '"' then ['\\', '"']
  else if c = '\\' then ['\\', '\\']
  else if c = '\n' then ['\\', 'n']
  else if c = '\r' then ['\\', 'r']
  else if c = '\t' then ['\\', 't']
  else if c = '\x08' then ['\\', 'b']
  else if c = '\x0c' then ['\\', 'f']
  else if c.toNat < 0x20 then
    ['\\', 'u', '0', '0', Nat.digitChar (c.toNat / 16), Nat.digitChar (c.toNat % 16)]
  else [c]

def serStr (s : String) : List Char :=
  '"' :: (s.toList.flatMap escapeChar) ++ ['"']

mutual

/-- Compact serialization of a JSON value, as `serde_json::to_string`. -/
def ser : Json → List Char
  | .null => "null".toList
  | .bool true => "true".toList
  | .bool false => "false".toList
  | .num n => (toString n).toList
  | .str s => serStr s
  | .arr elems => '[' :: serArr elems ++ [']']
  | .obj fields => '{' :: serObj fields ++ ['}']

def serArr : List Json → List Char
  | [] => []
  | [v] => ser v
  | v :: w :: rest => ser v ++ ',' :: serArr (w :: rest)

def serObj : List (String × Json) → List Char
  | [] => []
  | [(k, v)] => serStr k ++ ':' :: ser v
  | (k, v) :: f :: rest => serStr k ++ ':' :: ser v ++ ',' :: serObj (f :: rest)

end

/-- Byte length of a character sequence under UTF-8. -/
def utf8Len (s : List Char) : Nat :=
  (s.map Char.utf8Size).sum

/-- Length in bytes of the canonical JSON serialization of a value:
`serde_json::to_string(&result).len()` in Rust. -/
def serLen (v : Json) : Nat :=
  utf8Len (ser v)

/-- Field lookup in a JSON object (first binding wins), `none` otherwise. -/
def getField (j : Json) (k : String) : Option Json :=
  match j with
  | .obj fields => go fields
  | _ => none
where
  go : List (String × Json) → Option Json
    | [] => none
    | (k', v) :: rest => if k' = k then some v else go rest

/-- The stub object substituted for an oversized tool result
(`truncate_result` in `fs.rs`, `shell.rs` and `llm.rs`). -/
def truncStub (originalSize maxAllowed : Nat) : Json :=
  .obj
    [ ("truncated", .bool true)
    , ("original_size_bytes", .num originalSize)
    , ("max_allowed_bytes", .num maxAllowed)
    , ("message", .str "The tool output was too large and has been truncated. The rest of the output was too long.")
    , ("note", .str "Output exceeded the maximum size limit to prevent excessive token usage in the conversation.")
    ]

/-- `truncate_result` from `fs.rs` / `shell.rs` / `llm.rs`: serialize the
value, return it unchanged if the serialization fits in `max_output_size`
bytes, and otherwise return the truncation stub. -/
def truncate_result (max_output_size : Nat) (result : Json) : Json :=
  let len := serLen result
  if len ≤ max_output_size then result else truncStub len max_output_size

/-- Tail of `FsExecutor::execute_read_with_result` (fs.rs lines 104-113, the
same shape in `shell.rs`): given the serialized result value, the pair of
(value returned to the caller, payload of the emitted `ToolResult` event). -/
def fsResultDelivery (max_output_size : Nat) (result_value : Json) :
    Json × Json :=
  (truncate_result max_output_size result_value, result_value)

/-- Tail of `LlmExecutor::execute_large_context_fetch_with_result` (llm.rs
lines 98-107): the pair of (value returned to the caller, payload of the
emitted `ToolResult` event).  Note the sides are swapped relative to
`fsResultDelivery`. -/
def llmResultDelivery (max_output_size : Nat) (result_json : Json) :
    Json × Json :=
  (result_json, truncate_result max_output_size result_json)

/-- C3: for every tool result value, if the byte length `L` of its canonical
JSON serialization exceeds the configured maximum output size `T`, the
truncation step returns the stub object with `truncated=true`,
`original_size_bytes=L` and `max_allowed_bytes=T`; if `L ≤ T` the value is
returned unchanged. -/
theorem C3_truncate_result_threshold (T : Nat) (v : Json) :
    (serLen v ≤ T → truncate_result T v = v) ∧
      (serLen v > T →
        truncate_result T v = truncStub (serLen v) T ∧
        getField (truncate_result T v) "truncated" = some (.bool true) ∧
        getField (truncate_result T v) "original_size_bytes" = some (.num (serLen v)) ∧
        getField (truncate_result T v) "max_allowed_bytes" = some (.num T)) := by
  constructor
  · intro h
    simp [truncate_result, h]
  · intro h
    have hn : ¬ serLen v ≤ T := by omega
    refine ⟨by simp [truncate_result, hn], ?_, ?_, ?_⟩ <;>
      simp [truncate_result, hn, truncStub, getField, getField.go]

theorem C3_truncate_result_threshold_witness :
    (serLen (.str "abcdef") ≤ 100 ∧
      truncate_result 100 (.str "abcdef") = .str "abcdef") ∧
      (serLen (.str "abcdef") > 2 ∧
        truncate_result 2 (.str "abcdef") = truncStub (serLen (.str "abcdef")) 2 ∧
        getField (truncate_result 2 (.str "abcdef")) "truncated" = some (.bool true) ∧
        getField (truncate_result 2 (.str "abcdef")) "original_size_bytes"
          = some (.num (serLen (.str "abcdef"))) ∧
        getField (truncate_result 2 (.str "abcdef")) "max_allowed_bytes"
          = some (.num 2)) :=
  ⟨⟨by decide, (C3_truncate_result_threshold 100 (.str "abcdef")).1 (by decide)⟩,
   ⟨by decide, (C3_truncate_result_threshold 2 (.str "abcdef")).2 (by decide)⟩⟩

/-- C4: the claim states that for every successful tool execution whose
result exceeds the output-size cap, the caller receives the truncation stub
while the `ToolResult` event carries the full payload.  `fs.rs` and
`shell.rs` behave that way, but `llm.rs` (`large_context_fetch`) does the
reverse: at the failing input below (serialization length 32 > cap 10) the
caller receives the full payload (which has no `truncated` field) and the
event payload is the stub.  The last two conjuncts show the fs executor
does follow the claim at the same input. -/
theorem C4_llm_delivery_contradicts_claim :
    serLen (.str "a-large-tool-result-payload!!") > 10 ∧
    (llmResultDelivery 10 (.str "a-large-tool-result-payload!!")).1
      = .str "a-large-tool-result-payload!!" ∧
    getField (llmResultDelivery 10 (.str "a-large-tool-result-payload!!")).1
      "truncated" = none ∧
    getField (llmResultDelivery 10 (.str "a-large-tool-result-payload!!")).2
      "truncated" = some (.bool true) ∧
    getField (fsResultDelivery 10 (.str "a-large-tool-result-payload!!")).1
      "truncated" = some (.bool true) ∧
    (fsResultDelivery 10 (.str "a-large-tool-result-payload!!")).2
      = .str "a-large-tool-result-payload!!" := by
  refine ⟨by decide, rfl, rfl, rfl, rfl, rfl⟩

/-! ## The edit planner (`simple_edit.rs`)

File contents are `List Char`; the on-disk filesystem is
`Disk := String → Option (List Char)`.  `BTreeMap`/`BTreeSet` become
key-sorted association lists / sorted string lists.  The plan phase only
reads the disk, so `apply_op` takes the disk as a read-only argument;
`commit` is the function that produces a new disk. -/

/-- The on-disk filesystem: path to file contents (as decoded text). -/
def Disk := String → Option (List Char)

def diskUpdate (d : Disk) (p : String) (v : Option (List Char)) : Disk :=
  fun q => if q = p then v else d q

structure PlannedFile where
  original : Option (List Char)
  current : Option (List Char)
deriving DecidableEq

def PlannedFile.existing (content : List Char) : PlannedFile :=
  ⟨some content, some content⟩

def PlannedFile.newMissing : PlannedFile :=
  ⟨none, none⟩

/-- `SimpleEditOp` (tool argument type of `fs.apply_patch`); the enum itself
is declared in the tool-types module, with the shape fixed by the matches in
`simple_edit.rs`. -/
inductive SimpleEditOp where
  | setFile (path : String) (contents : List Char)
  | replaceOnce (path : String) (find replace : List Char)
  | insertBefore (path : String) (anchor insert : List Char)
  | insertAfter (path : String) (anchor insert : List Char)
  | deleteFile (path : String)
  | renameFile (path toP : String)
deriving DecidableEq

/-- Lookup in a key-sorted association list (`BTreeMap::get`). -/
def findA {α : Type} : List (String × α) → String → Option α
  | [], _ => none
  | (k', v) :: rest, k => if k' = k then some v else findA rest k

/-- Insert into an association list (`BTreeMap::insert`): replace the
existing binding or append.  (A `BTreeMap` iterates in key order; this model
iterates in insertion order, which no verified property depends on.) -/
def insertA {α : Type} : List (String × α) → String → α → List (String × α)
  | [], k, v => [(k, v)]
  | (k', v') :: rest, k, v =>
    if k' = k then (k, v) :: rest
    else (k', v') :: insertA rest k v

/-- Remove from an association list (`BTreeMap::remove`). -/
def removeA {α : Type} (m : List (String × α)) (k : String) : List (String × α) :=
  m.filter fun kv => kv.1 != k

/-- Insert into a string list without duplicating (`BTreeSet::insert`). -/
def insertS : List String → String → List String
  | [], k => [k]
  | x :: rest, k =>
    if x = k then x :: rest
    else x :: insertS rest k

/-- Remove from a string list (`BTreeSet::remove`). -/
def removeS (s : List String) (k : String) : List String :=
  s.filter fun x => x != k

structure SimpleEditPlanner where
  dry_run : Bool
  files : List (String × PlannedFile)
  renames : List (String × String × Bool)
  created : List String
  modified : List String
  deleted : List String
  descriptions : List String
  bytes_added : Nat
  bytes_removed : Nat
deriving DecidableEq

def SimpleEditPlanner.new (dry_run : Bool) : SimpleEditPlanner :=
  ⟨dry_run, [], [], [], [], [], [], 0, 0⟩

/-- `read_file_normalized`: read a file from disk and normalize newlines;
`none` when the file does not exist. -/
def read_file_normalized (d : Disk) (path : String) : Option (List Char) :=
  (d path).map normalize_newlines

/-- `path_exists_on_disk` via `tokio::fs::metadata`. -/
def path_exists_on_disk (d : Disk) (path : String) : Bool :=
  (d path).isSome

namespace SimpleEditPlanner

def ensure_entry (d : Disk) (st : SimpleEditPlanner) (path : String) :
    Except String SimpleEditPlanner :=
  if (findA st.files path).isSome then .ok st
  else
    match read_file_normalized d path with
    | some content =>
      .ok { st with files := insertA st.files path (.existing content) }
    | none => .error ("File not found: " ++ path)

def ensure_entry_allow_new (d : Disk) (st : SimpleEditPlanner) (path : String) :
    Except String SimpleEditPlanner :=
  if (findA st.files path).isSome then .ok st
  else
    match read_file_normalized d path with
    | some content =>
      .ok { st with files := insertA st.files path (.existing content) }
    | none =>
      .ok { st with files := insertA st.files path .newMissing }

def current_string (st : SimpleEditPlanner) (path : String) :
    Except String (List Char) :=
  match findA st.files path with
  | none => .error ("File state missing: " ++ path)
  | some entry =>
    match entry.current with
    | some c => .ok c
    | none => .error ("File has been deleted: " ++ path)

def record_delta (st : SimpleEditPlanner) (delta : Int) : SimpleEditPlanner :=
  if delta > 0 then { st with bytes_added := st.bytes_added + delta.toNat }
  else if delta < 0 then { st with bytes_removed := st.bytes_removed + (-delta).toNat }
  else st

def mark_created (st : SimpleEditPlanner) (path : String) : SimpleEditPlanner :=
  { st with created := insertS st.created path,
            modified := removeS st.modified path,
            deleted := removeS st.deleted path }

def mark_modified (st : SimpleEditPlanner) (path : String) : SimpleEditPlanner :=
  { st with modified := if path ∈ st.created then st.modified
                        else insertS st.modified path,
            deleted := removeS st.deleted path }

def mark_deleted (st : SimpleEditPlanner) (path : String) : SimpleEditPlanner :=
  { st with created := removeS st.created path,
            modified := removeS st.modified path,
            deleted := insertS st.deleted path }

def reassign_path (st : SimpleEditPlanner) (fromP toP : String) : SimpleEditPlanner :=
  let st₁ := if fromP ∈ st.created then
    { st with created := insertS (removeS st.created fromP) toP } else st
  let st₂ := if fromP ∈ st₁.modified then
    { st₁ with modified := insertS (removeS st₁.modified fromP) toP } else st₁
  if fromP ∈ st₂.deleted then
    { st₂ with deleted := insertS (removeS st₂.deleted fromP) toP } else st₂

def set_current (st : SimpleEditPlanner) (path : String) (new_content : List Char) :
    Except String SimpleEditPlanner :=
  match findA st.files path with
  | none => .error ("File state missing: " ++ path)
  | some entry =>
    let prev_len : Int := ((entry.current.map List.length).getD 0 : Nat)
    let original_is_none := entry.original.isNone
    let files' := insertA st.files path { entry with current := some new_content }
    let st' := { st with files := files' }
    let new_len : Int :=
      ((((findA st'.files path).bind PlannedFile.current).map List.length).getD 0 : Nat)
    let st'' := st'.record_delta (new_len - prev_len)
    if original_is_none then .ok (st''.mark_created path)
    else .ok (st''.mark_modified path)

def delete_current (st : SimpleEditPlanner) (path : String) :
    Except String SimpleEditPlanner :=
  match findA st.files path with
  | none => .error ("File state missing: " ++ path)
  | some entry =>
    match entry.current with
    | none => .error ("File already deleted: " ++ path)
    | some c =>
      let prev_len : Int := (c.length : Nat)
      let original_is_some := entry.original.isSome
      let st' := { st with files := insertA st.files path { entry with current := none } }
      let st'' := st'.record_delta (-prev_len)
      if original_is_some then .ok (st''.mark_deleted path)
      else .ok { st'' with created := removeS st''.created path,
                           modified := removeS st''.modified path }

/-- The destination check of the `RenameFile` arm (simple_edit.rs lines
102-112): a planned destination with live content is an error; a planned
tombstone is evicted from the plan and bookkeeping sets; an unplanned
destination must not exist on disk. -/
def rename_target_check (d : Disk) (st : SimpleEditPlanner) (toP : String) :
    Except String SimpleEditPlanner :=
  match findA st.files toP with
  | some existing =>
    if existing.current.isSome then
      .error ("Target already exists: " ++ toP)
    else
      .ok { st with files := removeA st.files toP,
                    created := removeS st.created toP,
                    modified := removeS st.modified toP,
                    deleted := removeS st.deleted toP }
  | none =>
    if path_exists_on_disk d toP then
      .error ("Target already exists: " ++ toP)
    else .ok st

/-- `SimpleEditPlanner::apply_op`.  The plan phase reads the disk but never
writes it, so the disk is a read-only argument. -/
def apply_op (d : Disk) (st : SimpleEditPlanner) (op : SimpleEditOp) :
    Except String SimpleEditPlanner :=
  match op with
  | .setFile path contents => do
    let st ← st.ensure_entry_allow_new d path
    let normalized := normalize_newlines contents
    let st ← st.set_current path normalized
    .ok { st with descriptions := st.descriptions ++ ["set_file " ++ path] }
  | .replaceOnce path find replace => do
    let st ← st.ensure_entry d path
    let current ← st.current_string path
    let needle := normalize_newlines find
    let replacement := normalize_newlines replace
    let idx ← exactly_once current needle
    let new_content :=
      current.take idx ++ replacement ++ current.drop (idx + needle.length)
    let st ← st.set_current path new_content
    .ok { st with descriptions := st.descriptions ++ ["replace_once " ++ path] }
  | .insertBefore path anchor insert => do
    let st ← st.ensure_entry d path
    let current ← st.current_string path
    let anchor_text := normalize_newlines anchor
    let insertion := normalize_newlines insert
    let idx ← exactly_once current anchor_text
    let new_content := current.take idx ++ insertion ++ current.drop idx
    let st ← st.set_current path new_content
    .ok { st with descriptions := st.descriptions ++ ["insert_before " ++ path] }
  | .insertAfter path anchor insert => do
    let st ← st.ensure_entry d path
    let current ← st.current_string path
    let anchor_text := normalize_newlines anchor
    let insertion := normalize_newlines insert
    let idx ← exactly_once current anchor_text
    let new_content :=
      current.take (idx + anchor_text.length) ++ insertion ++
        current.drop (idx + anchor_text.length)
    let st ← st.set_current path new_content
    .ok { st with descriptions := st.descriptions ++ ["insert_after " ++ path] }
  | .deleteFile path => do
    let st ← st.ensure_entry d path
    let st ← st.delete_current path
    .ok { st with descriptions := st.descriptions ++ ["delete_file " ++ path] }
  | .renameFile path toP =>
    if path = toP then .error "Source and destination paths are the same"
    else do
      let st ← st.ensure_entry d path
      if ((findA st.files path).bind PlannedFile.current).isNone then
        .error ("File not found: " ++ path)
      else do
        let st ← rename_target_check d st toP
        match findA st.files path with
        | none => .error ("File state missing: " ++ path)
        | some entry =>
          if entry.current.isNone then .error ("File not found: " ++ path)
          else
            let should_rename := entry.original.isSome
            let st := { st with files := insertA (removeA st.files path) toP entry }
            let st := st.reassign_path path toP
            .ok { st with
                    renames := st.renames ++ [(path, toP, should_rename)],
                    descriptions :=
                      st.descriptions ++ ["rename_file " ++ path ++ " -> " ++ toP] }

/-- Apply a list of operations in order (the plan phase of
`fs.apply_patch`). -/
def apply_ops (d : Disk) (st : SimpleEditPlanner) :
    List SimpleEditOp → Except String SimpleEditPlanner
  | [] => .ok st
  | op :: rest => do
    let st' ← st.apply_op d op
    apply_ops d st' rest

/-- The rename loop of `commit` (runs before the write loop); the disk after
the loop is returned even on failure, since the Rust code mutates the real
filesystem as it goes. -/
def commit_renames (d : Disk) :
    List (String × String × Bool) → (Except String Unit) × Disk
  | [] => (.ok (), d)
  | (fromP, toP, should) :: rest =>
    if !should || fromP = toP then commit_renames d rest
    else
      match d fromP with
      | none =>
        (.error ("Failed to rename " ++ fromP ++ " to " ++ toP ++ ": No such file or directory"), d)
      | some c =>
        commit_renames (diskUpdate (diskUpdate d fromP none) toP (some c)) rest

/-- The write/delete loop of `commit`. -/
def commit_files (d : Disk) : List (String × PlannedFile) → Disk
  | [] => d
  | (path, entry) :: rest =>
    match entry.current with
    | some content =>
      if entry.original.isNone || entry.original != some content then
        commit_files (diskUpdate d path (some content)) rest
      else commit_files d rest
    | none =>
      if entry.original.isSome then commit_files (diskUpdate d path none) rest
      else commit_files d rest

/-- `SimpleEditPlanner::commit`: apply renames first, then creations,
modifications and deletions. -/
def commit (d : Disk) (st : SimpleEditPlanner) : (Except String Unit) × Disk :=
  match commit_renames d st.renames with
  | (.error e, d') => (.error e, d')
  | (.ok _, d') => (.ok (), commit_files d' st.files)

def build_summary (st : SimpleEditPlanner) : String :=
  let lines :=
    [if st.dry_run then "Dry run: no changes were written."
     else "Edits applied successfully."]
    ++ (if st.created ≠ [] then
          ["Created files: " ++ String.intercalate ", " st.created] else [])
    ++ (if st.modified ≠ [] then
          ["Modified files: " ++ String.intercalate ", " st.modified] else [])
    ++ (if st.deleted ≠ [] then
          ["Deleted files: " ++ String.intercalate ", " st.deleted] else [])
    ++ (if st.renames ≠ [] then
          "Renamed files:" ::
            st.renames.map (fun r => "  " ++ r.1 ++ " -> " ++ r.2.1) else [])
    ++ (if st.descriptions ≠ [] then
          "Operations:" :: st.descriptions.map (fun d => "  - " ++ d) else [])
    ++ ["Bytes added: " ++ toString st.bytes_added,
        "Bytes removed: " ++ toString st.bytes_removed]
  String.intercalate "\n" lines

/-- `SimpleEditPlanner::finish`: commit unless `dry_run`, then return the
summary; the resulting disk is threaded out. -/
def finish (d : Disk) (st : SimpleEditPlanner) : (Except String String) × Disk :=
  if st.dry_run then (.ok st.build_summary, d)
  else
    match st.commit d with
    | (.ok _, d') => (.ok st.build_summary, d')
    | (.error e, d') => (.error e, d')

end SimpleEditPlanner

/-- The whole `fs.apply_patch` pipeline over the modeled disk: plan each
operation (reads only), then `finish` (which commits unless `dry_run`). -/
def runApplyPatch (d : Disk) (dry_run : Bool) (ops : List SimpleEditOp) :
    (Except String String) × Disk :=
  match SimpleEditPlanner.apply_ops d (SimpleEditPlanner.new dry_run) ops with
  | .error e => (.error e, d)
  | .ok st => st.finish d

def exceptIsOk {ε α : Type} : Except ε α → Bool
  | .ok _ => true
  | .error _ => false

theorem exceptBind_ok {ε α β : Type} {x : Except ε α} {f : α → Except ε β} {b : β}
    (h : (x >>= f) = .ok b) : ∃ a, x = .ok a ∧ f a = .ok b := by
  cases x with
  | error e => simp [Bind.bind, Except.bind] at h
  | ok a => exact ⟨a, rfl, by simpa [Bind.bind, Except.bind] using h⟩

namespace SimpleEditPlanner

@[simp] theorem record_delta_dry_run (st : SimpleEditPlanner) (δ : Int) :
    (st.record_delta δ).dry_run = st.dry_run := by
  unfold record_delta
  split
  · rfl
  · split <;> rfl

@[simp] theorem mark_created_dry_run (st : SimpleEditPlanner) (p : String) :
    (st.mark_created p).dry_run = st.dry_run := rfl

@[simp] theorem mark_modified_dry_run (st : SimpleEditPlanner) (p : String) :
    (st.mark_modified p).dry_run = st.dry_run := rfl

@[simp] theorem mark_deleted_dry_run (st : SimpleEditPlanner) (p : String) :
    (st.mark_deleted p).dry_run = st.dry_run := rfl

@[simp] theorem reassign_path_dry_run (st : SimpleEditPlanner) (a b : String) :
    (st.reassign_path a b).dry_run = st.dry_run := by
  simp only [reassign_path]
  split <;> split <;> split <;> rfl

theorem ensure_entry_dry_run {d : Disk} {st st' : SimpleEditPlanner} {p : String}
    (h : st.ensure_entry d p = .ok st') : st'.dry_run = st.dry_run := by
  unfold ensure_entry at h
  split at h
  · cases Except.ok.inj h; rfl
  · split at h
    · cases Except.ok.inj h; rfl
    · simp at h

theorem ensure_entry_allow_new_dry_run {d : Disk} {st st' : SimpleEditPlanner}
    {p : String} (h : st.ensure_entry_allow_new d p = .ok st') :
    st'.dry_run = st.dry_run := by
  unfold ensure_entry_allow_new at h
  split at h
  · cases Except.ok.inj h; rfl
  · split at h <;> (cases Except.ok.inj h; rfl)

theorem set_current_dry_run {st st' : SimpleEditPlanner} {p : String}
    {c : List Char} (h : st.set_current p c = .ok st') :
    st'.dry_run = st.dry_run := by
  unfold set_current at h
  split at h
  · simp at h
  · dsimp only at h
    split at h <;> (cases Except.ok.inj h; simp)

theorem delete_current_dry_run {st st' : SimpleEditPlanner} {p : String}
    (h : st.delete_current p = .ok st') : st'.dry_run = st.dry_run := by
  unfold delete_current at h
  split at h
  · simp at h
  · split at h
    · simp at h
    · dsimp only at h
      split at h <;> (cases Except.ok.inj h; simp)

theorem apply_op_dry_run {d : Disk} {st st' : SimpleEditPlanner}
    {op : SimpleEditOp} (h : st.apply_op d op = .ok st') :
    st'.dry_run = st.dry_run := by
  cases op with
  | setFile path contents =>
    unfold apply_op at h
    obtain ⟨a, ha, h⟩ := exceptBind_ok h
    obtain ⟨b, hb, h⟩ := exceptBind_ok h
    cases Except.ok.inj h
    calc _ = b.dry_run := rfl
      _ = a.dry_run := set_current_dry_run hb
      _ = st.dry_run := ensure_entry_allow_new_dry_run ha
  | replaceOnce path f r =>
    unfold apply_op at h
    obtain ⟨a, ha, h⟩ := exceptBind_ok h
    obtain ⟨c, _, h⟩ := exceptBind_ok h
    obtain ⟨i, _, h⟩ := exceptBind_ok h
    obtain ⟨b, hb, h⟩ := exceptBind_ok h
    cases Except.ok.inj h
    calc _ = b.dry_run := rfl
      _ = a.dry_run := set_current_dry_run hb
      _ = st.dry_run := ensure_entry_dry_run ha
  | insertBefore path anch ins =>
    unfold apply_op at h
    obtain ⟨a, ha, h⟩ := exceptBind_ok h
    obtain ⟨c, _, h⟩ := exceptBind_ok h
    obtain ⟨i, _, h⟩ := exceptBind_ok h
    obtain ⟨b, hb, h⟩ := exceptBind_ok h
    cases Except.ok.inj h
    calc _ = b.dry_run := rfl
      _ = a.dry_run := set_current_dry_run hb
      _ = st.dry_run := ensure_entry_dry_run ha
  | insertAfter path anch ins =>
    unfold apply_op at h
    obtain ⟨a, ha, h⟩ := exceptBind_ok h
    obtain ⟨c, _, h⟩ := exceptBind_ok h
    obtain ⟨i, _, h⟩ := exceptBind_ok h
    obtain ⟨b, hb, h⟩ := exceptBind_ok h
    cases Except.ok.inj h
    calc _ = b.dry_run := rfl
      _ = a.dry_run := set_current_dry_run hb
      _ = st.dry_run := ensure_entry_dry_run ha
  | deleteFile path =>
    unfold apply_op at h
    obtain ⟨a, ha, h⟩ := exceptBind_ok h
    obtain ⟨b, hb, h⟩ := exceptBind_ok h
    cases Except.ok.inj h
    calc _ = b.dry_run := rfl
      _ = a.dry_run := delete_current_dry_run hb
      _ = st.dry_run := ensure_entry_dry_run ha
  | renameFile path toP =>
    simp only [apply_op] at h
    split at h
    · simp at h
    · obtain ⟨a, ha, h⟩ := exceptBind_ok h
      have hadry := ensure_entry_dry_run ha
      split at h
      · simp at h
      · obtain ⟨m, hm, h⟩ := exceptBind_ok h
        have hmdry : m.dry_run = a.dry_run := by
          unfold rename_target_check at hm
          split at hm
          · split at hm
            · simp at hm
            · cases Except.ok.inj hm; rfl
          · split at hm
            · simp at hm
            · cases Except.ok.inj hm; rfl
        split at h
        · simp at h
        · split at h
          · simp at h
          · cases Except.ok.inj h
            simp [hmdry, hadry]

theorem apply_ops_dry_run {d : Disk} {st st' : SimpleEditPlanner}
    {ops : List SimpleEditOp} (h : apply_ops d st ops = .ok st') :
    st'.dry_run = st.dry_run := by
  induction ops generalizing st with
  | nil => cases Except.ok.inj h; rfl
  | cons op rest ih =>
    unfold apply_ops at h
    obtain ⟨a, ha, h⟩ := exceptBind_ok h
    exact (ih h).trans (apply_op_dry_run ha)

end SimpleEditPlanner

/-- C2: with `dry_run=true` the `fs.apply_patch` pipeline never modifies the
filesystem; the plan phase only reads, so a plan-phase failure leaves the
filesystem unchanged for any `dry_run`; and a successful dry run returns the
planner's summary string. -/
theorem C2_dry_run_never_modifies_fs (d : Disk) (ops : List SimpleEditOp) :
    (runApplyPatch d true ops).2 = d ∧
    (∀ dry_run,
      exceptIsOk (SimpleEditPlanner.apply_ops d (SimpleEditPlanner.new dry_run) ops) = false →
      (runApplyPatch d dry_run ops).2 = d) ∧
    (∀ st, SimpleEditPlanner.apply_ops d (SimpleEditPlanner.new true) ops = .ok st →
      (runApplyPatch d true ops).1 = .ok st.build_summary) := by
  refine ⟨?_, ?_, ?_⟩
  · unfold runApplyPatch
    cases hres : SimpleEditPlanner.apply_ops d (SimpleEditPlanner.new true) ops with
    | error e => rfl
    | ok st =>
      have hdry : st.dry_run = true := SimpleEditPlanner.apply_ops_dry_run hres
      simp [SimpleEditPlanner.finish, hdry]
  · intro dry_run h
    unfold runApplyPatch
    cases hres : SimpleEditPlanner.apply_ops d (SimpleEditPlanner.new dry_run) ops with
    | error e => rfl
    | ok st => rw [hres] at h; simp [exceptIsOk] at h
  · intro st hres
    unfold runApplyPatch
    rw [hres]
    have hdry : st.dry_run = true := SimpleEditPlanner.apply_ops_dry_run hres
    simp [SimpleEditPlanner.finish, hdry]

/-- Witness for C2 at a concrete disk and op list: an empty disk, one failing
plan (delete of a missing file) and one successful dry-run plan. -/
theorem C2_dry_run_never_modifies_fs_witness :
    ((runApplyPatch (fun _ => none) true [.deleteFile "x"]).2 = (fun _ => none)) ∧
    ((runApplyPatch (fun _ => none) false [.deleteFile "x"]).2 = (fun _ => none)) :=
  ⟨(C2_dry_run_never_modifies_fs (fun _ => none) [.deleteFile "x"]).1,
   (C2_dry_run_never_modifies_fs (fun _ => none) [.deleteFile "x"]).2.1 false (by rfl)⟩

@[simp] theorem ok_bind {ε α β : Type} (a : α) (f : α → Except ε β) :
    (Except.ok a >>= f) = f a := rfl

@[simp] theorem error_bind {ε α β : Type} (e : ε) (f : α → Except ε β) :
    ((Except.error e : Except ε α) >>= f) = .error e := rfl

theorem findA_insertA_self {α : Type} (m : List (String × α)) (k : String) (v : α) :
    findA (insertA m k v) k = some v := by
  induction m with
  | nil => simp [insertA, findA]
  | cons kv rest ih =>
    obtain ⟨k', v'⟩ := kv
    by_cases hk : k' = k
    · simp [insertA, hk, findA]
    · simp [insertA, hk, findA, ih]

theorem findA_insertA_ne {α : Type} (m : List (String × α)) (k q : String) (v : α)
    (hq : q ≠ k) : findA (insertA m k v) q = findA m q := by
  have hq' : ¬ (k = q) := fun h => hq h.symm
  induction m with
  | nil => simp [insertA, findA, hq']
  | cons kv rest ih =>
    obtain ⟨k', v'⟩ := kv
    by_cases hk : k' = k
    · have hkq : ¬ (k' = q) := by rw [hk]; exact hq'
      simp [insertA, hk, findA, hq', hkq]
    · simp [insertA, hk, findA, ih]

theorem findA_removeA_self {α : Type} (m : List (String × α)) (k : String) :
    findA (removeA m k) k = none := by
  induction m with
  | nil => simp [removeA, findA]
  | cons kv rest ih =>
    obtain ⟨k', v'⟩ := kv
    by_cases hk : k' = k
    · simpa [removeA, List.filter_cons, hk] using ih
    · simpa [removeA, List.filter_cons, hk, findA] using ih

/-- The current planned content of a file as seen by the plan phase: the
planner's entry when one exists, otherwise the (newline-normalized) on-disk
content. -/
def plannedContent (d : Disk) (st : SimpleEditPlanner) (path : String) :
    Option (List Char) :=
  match findA st.files path with
  | some pf => pf.current
  | none => read_file_normalized d path

namespace SimpleEditPlanner

theorem ensure_entry_planned {d : Disk} {st : SimpleEditPlanner} {path : String}
    {cur : List Char} (h : plannedContent d st path = some cur) :
    ∃ st₂ pf, st.ensure_entry d path = .ok st₂ ∧
      findA st₂.files path = some pf ∧ pf.current = some cur ∧
      ∀ q, q ≠ path → findA st₂.files q = findA st.files q := by
  unfold plannedContent at h
  cases hf : findA st.files path with
  | some pf =>
    simp only [hf] at h
    exact ⟨st, pf, by simp [ensure_entry, hf], hf, h, fun _ _ => rfl⟩
  | none =>
    simp only [hf] at h
    refine ⟨{ st with files := insertA st.files path (.existing cur) },
      .existing cur, ?_, ?_, rfl, ?_⟩
    · simp [ensure_entry, hf, h]
    · exact findA_insertA_self _ _ _
    · exact fun q hq => findA_insertA_ne _ _ _ _ hq

theorem current_string_of_find {st : SimpleEditPlanner} {path : String}
    {pf : PlannedFile} {cur : List Char} (hf : findA st.files path = some pf)
    (hc : pf.current = some cur) : st.current_string path = .ok cur := by
  simp [current_string, hf, hc]

theorem set_current_ok {st : SimpleEditPlanner} {path : String} {pf : PlannedFile}
    (hf : findA st.files path = some pf) (c : List Char) :
    ∃ st', st.set_current path c = .ok st' := by
  unfold set_current
  rw [hf]
  dsimp only
  split <;> exact ⟨_, rfl⟩

/-- Behaviour of the common tail of the three anchored operations: look up
the unique anchor occurrence, then store the rewritten content. -/
theorem anchored_tail_characterization {st₂ : SimpleEditPlanner} {path : String}
    {pf : PlannedFile} {cur : List Char} (hf : findA st₂.files path = some pf)
    (_hc : pf.current = some cur) (needle : List Char) (mk : Nat → List Char)
    (post : SimpleEditPlanner → Except String SimpleEditPlanner)
    (hpost : ∀ s, ∃ s', post s = .ok s') :
    (occCount cur needle = 0 →
      (exactly_once cur needle >>= fun idx =>
        st₂.set_current path (mk idx) >>= post) = .error "anchor not found") ∧
    (1 < occCount cur needle →
      (exactly_once cur needle >>= fun idx =>
        st₂.set_current path (mk idx) >>= post) = .error "anchor ambiguous (found >1)") ∧
    ((∃ st', (exactly_once cur needle >>= fun idx =>
        st₂.set_current path (mk idx) >>= post) = .ok st') ↔
      occCount cur needle = 1) := by
  refine ⟨?_, ?_, ?_⟩
  · intro h0
    rw [exactly_once_zero h0]
    rfl
  · intro h2
    rw [exactly_once_many h2]
    rfl
  · constructor
    · rintro ⟨st', h⟩
      obtain ⟨i, hi, -⟩ := exceptBind_ok h
      exact (exactly_once_isOk_iff cur needle).mp ⟨i, hi⟩
    · intro h1
      obtain ⟨i, hi⟩ := exactly_once_ok h1
      rw [hi, ok_bind]
      obtain ⟨s₃, hs₃⟩ := set_current_ok hf (mk i)
      rw [hs₃, ok_bind]
      exact hpost s₃

end SimpleEditPlanner

/-- C1: for `ReplaceOnce`, `InsertBefore` and `InsertAfter`, provided the
target file has current planned content `cur`, the operation fails iff the
number of (non-overlapping) occurrences of the newline-normalized
find/anchor string in `cur` is not exactly 1; zero occurrences produce
`"anchor not found"` and two or more produce `"anchor ambiguous (found >1)"`. -/
theorem C1_anchor_uniqueness (d : Disk) (st : SimpleEditPlanner) (path : String)
    (cur : List Char) (h : plannedContent d st path = some cur)
    (find replace anchor insert : List Char) :
    ((occCount cur (normalize_newlines find) = 0 →
        st.apply_op d (.replaceOnce path find replace) = .error "anchor not found") ∧
     (1 < occCount cur (normalize_newlines find) →
        st.apply_op d (.replaceOnce path find replace)
          = .error "anchor ambiguous (found >1)") ∧
     ((∃ st', st.apply_op d (.replaceOnce path find replace) = .ok st') ↔
        occCount cur (normalize_newlines find) = 1)) ∧
    ((occCount cur (normalize_newlines anchor) = 0 →
        st.apply_op d (.insertBefore path anchor insert) = .error "anchor not found") ∧
     (1 < occCount cur (normalize_newlines anchor) →
        st.apply_op d (.insertBefore path anchor insert)
          = .error "anchor ambiguous (found >1)") ∧
     ((∃ st', st.apply_op d (.insertBefore path anchor insert) = .ok st') ↔
        occCount cur (normalize_newlines anchor) = 1)) ∧
    ((occCount cur (normalize_newlines anchor) = 0 →
        st.apply_op d (.insertAfter path anchor insert) = .error "anchor not found") ∧
     (1 < occCount cur (normalize_newlines anchor) →
        st.apply_op d (.insertAfter path anchor insert)
          = .error "anchor ambiguous (found >1)") ∧
     ((∃ st', st.apply_op d (.insertAfter path anchor insert) = .ok st') ↔
        occCount cur (normalize_newlines anchor) = 1)) := by
  obtain ⟨st₂, pf, hens, hf, hc, -⟩ := SimpleEditPlanner.ensure_entry_planned h
  have hcs := SimpleEditPlanner.current_string_of_find hf hc
  refine ⟨?_, ?_, ?_⟩
  · have := SimpleEditPlanner.anchored_tail_characterization hf hc
      (normalize_newlines find)
      (fun idx => cur.take idx ++ normalize_newlines replace ++
        cur.drop (idx + (normalize_newlines find).length))
      (fun s => .ok { s with descriptions := s.descriptions ++ ["replace_once " ++ path] })
      (fun s => ⟨_, rfl⟩)
    simpa [SimpleEditPlanner.apply_op, hens, hcs] using this
  · have := SimpleEditPlanner.anchored_tail_characterization hf hc
      (normalize_newlines anchor)
      (fun idx => cur.take idx ++ normalize_newlines insert ++ cur.drop idx)
      (fun s => .ok { s with descriptions := s.descriptions ++ ["insert_before " ++ path] })
      (fun s => ⟨_, rfl⟩)
    simpa [SimpleEditPlanner.apply_op, hens, hcs] using this
  · have := SimpleEditPlanner.anchored_tail_characterization hf hc
      (normalize_newlines anchor)
      (fun idx => cur.take (idx + (normalize_newlines anchor).length) ++
        normalize_newlines insert ++ cur.drop (idx + (normalize_newlines anchor).length))
      (fun s => .ok { s with descriptions := s.descriptions ++ ["insert_after " ++ path] })
      (fun s => ⟨_, rfl⟩)
    simpa [SimpleEditPlanner.apply_op, hens, hcs] using this

/-- Witness for C1 on the planned file `"a.txt"` with content `"aba"`:
needle `"z"` occurs 0 times (replace fails with "anchor not found"),
needle `"a"` occurs twice (insert-before fails with ambiguity), and needle
`"b"` occurs once (insert-after succeeds). -/
theorem C1_anchor_uniqueness_witness :
    plannedContent (fun _ => none)
      ⟨false, [("a.txt", ⟨some ['a','b','a'], some ['a','b','a']⟩)],
        [], [], [], [], [], 0, 0⟩ "a.txt" = some ['a','b','a'] ∧
    occCount ['a','b','a'] (normalize_newlines ['z']) = 0 ∧
    SimpleEditPlanner.apply_op (fun _ => none)
      ⟨false, [("a.txt", ⟨some ['a','b','a'], some ['a','b','a']⟩)],
        [], [], [], [], [], 0, 0⟩ (.replaceOnce "a.txt" ['z'] [])
      = .error "anchor not found" ∧
    1 < occCount ['a','b','a'] (normalize_newlines ['a']) ∧
    SimpleEditPlanner.apply_op (fun _ => none)
      ⟨false, [("a.txt", ⟨some ['a','b','a'], some ['a','b','a']⟩)],
        [], [], [], [], [], 0, 0⟩ (.insertBefore "a.txt" ['a'] ['c'])
      = .error "anchor ambiguous (found >1)" ∧
    occCount ['a','b','a'] (normalize_newlines ['b']) = 1 ∧
    ∃ st', SimpleEditPlanner.apply_op (fun _ => none)
      ⟨false, [("a.txt", ⟨some ['a','b','a'], some ['a','b','a']⟩)],
        [], [], [], [], [], 0, 0⟩ (.insertAfter "a.txt" ['b'] ['c'])
      = .ok st' :=
  ⟨rfl, by decide,
   (C1_anchor_uniqueness (fun _ => none)
      ⟨false, [("a.txt", ⟨some ['a','b','a'], some ['a','b','a']⟩)],
        [], [], [], [], [], 0, 0⟩ "a.txt" ['a','b','a'] rfl
      ['z'] [] ['a'] ['c']).1.1 (by decide),
   by decide,
   (C1_anchor_uniqueness (fun _ => none)
      ⟨false, [("a.txt", ⟨some ['a','b','a'], some ['a','b','a']⟩)],
        [], [], [], [], [], 0, 0⟩ "a.txt" ['a','b','a'] rfl
      ['z'] [] ['a'] ['c']).2.1.2.1 (by decide),
   by decide,
   (C1_anchor_uniqueness (fun _ => none)
      ⟨false, [("a.txt", ⟨some ['a','b','a'], some ['a','b','a']⟩)],
        [], [], [], [], [], 0, 0⟩ "a.txt" ['a','b','a'] rfl
      ['z'] [] ['b'] ['c']).2.2.2.2.mpr (by decide)⟩

theorem findA_removeA_ne {α : Type} (m : List (String × α)) (k q : String)
    (hq : q ≠ k) : findA (removeA m k) q = findA m q := by
  induction m with
  | nil => simp [removeA, findA]
  | cons kv rest ih =>
    obtain ⟨k', v'⟩ := kv
    by_cases hk : k' = k
    · have hq2 : ¬ (k = q) := fun h => hq h.symm
      simpa [removeA, List.filter_cons, hk, findA, hq2] using ih
    · by_cases hq' : k' = q
      · simp [removeA, List.filter_cons, hk, findA, hq', hq]
      · simpa [removeA, List.filter_cons, hk, findA, hq'] using ih

namespace SimpleEditPlanner

@[simp] theorem reassign_path_files (st : SimpleEditPlanner) (a b : String) :
    (st.reassign_path a b).files = st.files := by
  simp only [reassign_path]
  split <;> split <;> split <;> rfl

end SimpleEditPlanner

/-- C9 (amended): for `RenameFile{path, to}` with the source file available
to the plan, the operation fails when `to` equals `path`, when `to` is a
planned path with live content, or when `to` is not in the plan and names an
existing on-disk file; when `to` is free — not planned and absent on disk,
or planned but already deleted — the plan entry moves from `path` to `to`
(the claim's blanket "fails when to names an existing on-disk file" is
refuted by the planned-deleted case, see the counterexample). -/
theorem C9_rename_file_checks (d : Disk) (st : SimpleEditPlanner)
    (path toP : String) (cur : List Char)
    (hsrc : plannedContent d st path = some cur) :
    (path = toP →
      st.apply_op d (.renameFile path toP)
        = .error "Source and destination paths are the same") ∧
    (path ≠ toP → ∀ pt c', findA st.files toP = some pt → pt.current = some c' →
      st.apply_op d (.renameFile path toP)
        = .error ("Target already exists: " ++ toP)) ∧
    (path ≠ toP → findA st.files toP = none → path_exists_on_disk d toP = true →
      st.apply_op d (.renameFile path toP)
        = .error ("Target already exists: " ++ toP)) ∧
    (path ≠ toP →
      ((findA st.files toP = none ∧ path_exists_on_disk d toP = false) ∨
        (∃ pt, findA st.files toP = some pt ∧ pt.current = none)) →
      ∃ st', st.apply_op d (.renameFile path toP) = .ok st' ∧
        findA st'.files path = none ∧
        ∃ pf, findA st'.files toP = some pf ∧ pf.current = some cur) := by
  obtain ⟨st₂, pf, hens, hf, hc, hpres⟩ :=
    SimpleEditPlanner.ensure_entry_planned hsrc
  refine ⟨?_, ?_, ?_, ?_⟩
  · intro heq
    simp [SimpleEditPlanner.apply_op, heq]
  · intro hne pt c' hto hcur
    have hto₂ : findA st₂.files toP = some pt := by
      rw [hpres toP (fun h => hne h.symm), hto]
    simp [SimpleEditPlanner.apply_op, hne, hens, hf, hc,
      SimpleEditPlanner.rename_target_check, hto₂, hcur]
  · intro hne hto hdisk
    have hto₂ : findA st₂.files toP = none := by
      rw [hpres toP (fun h => hne h.symm), hto]
    simp [SimpleEditPlanner.apply_op, hne, hens, hf, hc,
      SimpleEditPlanner.rename_target_check, hto₂, hdisk]
  · intro hne hfree
    have hne' : toP ≠ path := fun h => hne h.symm
    -- the planner state after the destination check
    obtain ⟨m, hm, hmfiles⟩ :
        ∃ m, SimpleEditPlanner.rename_target_check d st₂ toP = .ok m ∧
          findA m.files path = some pf := by
      rcases hfree with ⟨hto, hdisk⟩ | ⟨pt, hto, hcur⟩
      · have hto₂ : findA st₂.files toP = none := by
          rw [hpres toP hne', hto]
        exact ⟨st₂, by simp [SimpleEditPlanner.rename_target_check, hto₂, hdisk], hf⟩
      · have hto₂ : findA st₂.files toP = some pt := by
          rw [hpres toP hne', hto]
        have hstep : SimpleEditPlanner.rename_target_check d st₂ toP =
            .ok { st₂ with files := removeA st₂.files toP,
                           created := removeS st₂.created toP,
                           modified := removeS st₂.modified toP,
                           deleted := removeS st₂.deleted toP } := by
          simp [SimpleEditPlanner.rename_target_check, hto₂, hcur]
        refine ⟨_, hstep, ?_⟩
        simpa using (findA_removeA_ne st₂.files toP path hne).trans hf
    refine ⟨{ SimpleEditPlanner.reassign_path
        { m with files := insertA (removeA m.files path) toP pf } path toP with
        renames := (SimpleEditPlanner.reassign_path
          { m with files := insertA (removeA m.files path) toP pf } path toP).renames
            ++ [(path, toP, pf.original.isSome)],
        descriptions := (SimpleEditPlanner.reassign_path
          { m with files := insertA (removeA m.files path) toP pf } path toP).descriptions
            ++ ["rename_file " ++ path ++ " -> " ++ toP] }, ?_, ?_, pf, ?_, hc⟩
    · simp only [SimpleEditPlanner.apply_op]
      rw [if_neg hne, hens, ok_bind]
      rw [if_neg (by simp [hf, hc])]
      rw [hm, ok_bind]
      simp only [hmfiles]
      rw [if_neg (by simp [hc])]
    · simp only [SimpleEditPlanner.reassign_path_files]
      rw [findA_insertA_ne _ _ _ _ hne]
      exact findA_removeA_self _ _
    · simp only [SimpleEditPlanner.reassign_path_files]
      exact findA_insertA_self _ _ _

/-- Counterexample to C9 as stated: on a disk where both `"a"` and `"b"`
exist, the plan `[DeleteFile "b", RenameFile "a" → "b"]` succeeds even
though the destination `"b"` names an existing on-disk file, because the
planned deletion of `"b"` frees the slot. -/
theorem C9_rename_file_counterexample :
    exceptIsOk (SimpleEditPlanner.apply_ops
      (fun p => if p = "a" then some ['x'] else if p = "b" then some ['y'] else none)
      (SimpleEditPlanner.new false)
      [.deleteFile "b", .renameFile "a" "b"]) = true ∧
    path_exists_on_disk
      (fun p => if p = "a" then some ['x'] else if p = "b" then some ['y'] else none)
      "b" = true := by
  constructor <;> rfl

/-- Witness for C9 at concrete inputs: renaming onto itself fails, renaming
onto a live planned file fails, renaming onto an existing on-disk file
fails, and renaming onto a free destination moves the entry. -/
theorem C9_rename_file_checks_witness :
    (plannedContent (fun _ => none)
      ⟨false, [("a", ⟨some ['x'], some ['x']⟩), ("b", ⟨some ['y'], some ['y']⟩)],
        [], [], [], [], [], 0, 0⟩ "a" = some ['x']) ∧
    SimpleEditPlanner.apply_op (fun _ => none)
      ⟨false, [("a", ⟨some ['x'], some ['x']⟩), ("b", ⟨some ['y'], some ['y']⟩)],
        [], [], [], [], [], 0, 0⟩ (.renameFile "a" "a")
      = .error "Source and destination paths are the same" ∧
    SimpleEditPlanner.apply_op (fun _ => none)
      ⟨false, [("a", ⟨some ['x'], some ['x']⟩), ("b", ⟨some ['y'], some ['y']⟩)],
        [], [], [], [], [], 0, 0⟩ (.renameFile "a" "b")
      = .error ("Target already exists: " ++ "b") ∧
    SimpleEditPlanner.apply_op
      (fun p => if p = "c" then some ['z'] else none)
      ⟨false, [("a", ⟨some ['x'], some ['x']⟩)], [], [], [], [], [], 0, 0⟩
      (.renameFile "a" "c")
      = .error ("Target already exists: " ++ "c") ∧
    (∃ st', SimpleEditPlanner.apply_op (fun _ => none)
      ⟨false, [("a", ⟨some ['x'], some ['x']⟩)], [], [], [], [], [], 0, 0⟩
      (.renameFile "a" "b") = .ok st' ∧
      findA st'.files "a" = none ∧
      ∃ pf, findA st'.files "b" = some pf ∧ pf.current = some ['x']) := by
  refine ⟨rfl, ?_, ?_, ?_, ?_⟩
  · exact (C9_rename_file_checks (fun _ => none)
      ⟨false, [("a", ⟨some ['x'], some ['x']⟩), ("b", ⟨some ['y'], some ['y']⟩)],
        [], [], [], [], [], 0, 0⟩ "a" "a" ['x'] rfl).1 rfl
  · exact (C9_rename_file_checks (fun _ => none)
      ⟨false, [("a", ⟨some ['x'], some ['x']⟩), ("b", ⟨some ['y'], some ['y']⟩)],
        [], [], [], [], [], 0, 0⟩ "a" "b" ['x'] rfl).2.1 (by decide)
      ⟨some ['y'], some ['y']⟩ ['y'] rfl rfl
  · exact (C9_rename_file_checks (fun p => if p = "c" then some ['z'] else none)
      ⟨false, [("a", ⟨some ['x'], some ['x']⟩)], [], [], [], [], [], 0, 0⟩
      "a" "c" ['x'] rfl).2.2.1 (by decide) rfl rfl
  · exact (C9_rename_file_checks (fun _ => none)
      ⟨false, [("a", ⟨some ['x'], some ['x']⟩)], [], [], [], [], [], 0, 0⟩
      "a" "b" ['x'] rfl).2.2.2 (by decide) (Or.inl ⟨rfl, rfl⟩)

/-! ## `fs.read` without a byte range (`fs.rs` lines 88-96) -/

/-- The 1 MiB cap (`MAX_SIZE` in `execute_read_with_result`). -/
def MAX_SIZE : Nat := 1024 * 1024

/-- Rust's byte slice `&text[..n]` on decoded text: `some` prefix when the
byte offset `n` falls exactly on a character boundary (or the text ends with
budget left, in which case `&text[..n]` would be out of bounds — that case
is `none` too, matching the slice panic), `none` when byte `n` lands inside
a multi-byte character, where the Rust indexing operation panics. -/
def sliceBytes? : Nat → List Char → Option (List Char)
  | budget, [] => if budget = 0 then some [] else none
  | budget, c :: rest =>
    if budget = 0 then some []
    else if c.utf8Size ≤ budget then
      (sliceBytes? (budget - c.utf8Size) rest).map (fun l => c :: l)
    else none

structure FsReadResult where
  contents : List Char
  encoding : String
  truncated : Bool
deriving DecidableEq

/-- The no-range branch of `FsExecutor::execute_read_with_result`: contents
strictly larger than `MAX_SIZE` bytes are cut by `&text_contents[..MAX_SIZE]`
to the first `MAX_SIZE` bytes with `truncated=true` — an operation that
panics (`none` here) when byte `MAX_SIZE` is not a character boundary;
anything else is returned whole with `truncated=false`. -/
def execute_read_no_range (text : List Char) : Option FsReadResult :=
  if utf8Len text > MAX_SIZE then
    (sliceBytes? MAX_SIZE text).map (fun cut => ⟨cut, "utf-8", true⟩)
  else
    some ⟨text, "utf-8", false⟩

theorem utf8Len_replicate_a (n : Nat) :
    utf8Len (List.replicate n 'a') = n := by
  induction n with
  | zero => rfl
  | succ k ih =>
    simp only [List.replicate_succ, utf8Len, List.map_cons, List.sum_cons] at *
    rw [ih]
    have : 'a'.utf8Size = 1 := rfl
    omega

theorem utf8Len_append (s t : List Char) :
    utf8Len (s ++ t) = utf8Len s + utf8Len t := by
  simp [utf8Len]

theorem utf8Len_cons (c : Char) (l : List Char) :
    utf8Len (c :: l) = c.utf8Size + utf8Len l := by
  simp [utf8Len]

/-- A successful byte slice returns a prefix of exactly the requested byte
length. -/
theorem sliceBytes?_spec {s cut : List Char} {n : Nat}
    (h : sliceBytes? n s = some cut) :
    utf8Len cut = n ∧ ∃ rest, s = cut ++ rest := by
  induction s generalizing n cut with
  | nil =>
    rw [sliceBytes?] at h
    split at h
    next hn =>
      cases Option.some.inj h
      exact ⟨by simp [utf8Len, hn], [], rfl⟩
    next => exact absurd h (by simp)
  | cons c t ih =>
    rw [sliceBytes?] at h
    split at h
    next hn =>
      cases Option.some.inj h
      exact ⟨by simp [utf8Len, hn], c :: t, rfl⟩
    next hn =>
      split at h
      next hfit =>
        rcases Option.map_eq_some'.mp h with ⟨cut', hslice, hcut⟩
        obtain ⟨hlen, rest, hrest⟩ := ih hslice
        subst hcut
        refine ⟨?_, rest, by rw [List.cons_append, ← hrest]⟩
        rw [utf8Len_cons, hlen]
        omega
      next => exact absurd h (by simp)

/-- Slicing `n` bytes off a run of at least `n` ASCII characters keeps the
first `n` of them. -/
theorem sliceBytes?_replicate_a (n m : Nat) (h : n ≤ m) :
    sliceBytes? n (List.replicate m 'a') = some (List.replicate n 'a') := by
  induction n generalizing m with
  | zero =>
    cases m with
    | zero => rfl
    | succ m' => rw [List.replicate_succ]; rfl
  | succ k ih =>
    cases m with
    | zero => omega
    | succ m' =>
      simp only [List.replicate_succ, sliceBytes?,
        show ('a').utf8Size = 1 from rfl]
      rw [if_neg (by omega), if_pos (by omega)]
      rw [show k + 1 - 1 = k from rfl]
      rw [ih m' (by omega)]
      simp [List.replicate_succ]

/-- Slicing past a run of `m` ASCII characters continues in the tail with
the remaining budget. -/
theorem sliceBytes?_append_replicate (m : Nat) : ∀ (n : Nat) (rest : List Char),
    m ≤ n → sliceBytes? n (List.replicate m 'a' ++ rest)
      = (sliceBytes? (n - m) rest).map (fun l => List.replicate m 'a' ++ l) := by
  induction m with
  | zero =>
    intro n rest _
    simp only [List.replicate, List.nil_append, Nat.sub_zero]
    cases sliceBytes? n rest <;> simp
  | succ m' ih =>
    intro n rest h
    cases n with
    | zero => omega
    | succ n' =>
      simp only [List.replicate_succ, List.cons_append, List.append_eq,
        sliceBytes?, show ('a').utf8Size = 1 from rfl]
      rw [if_neg (by omega), if_pos (by omega)]
      rw [show n' + 1 - 1 = n' from rfl]
      rw [ih n' rest (by omega)]
      rw [show n' + 1 - (m' + 1) = n' - m' from by omega]
      cases sliceBytes? (n' - m') rest <;> simp

/-- C8 (amended): for `fs.read` with no byte range, decoded contents of
strictly more than 1 MiB yield `truncated=true` with the contents the
1 MiB-byte prefix when byte 1 MiB is a character boundary, and a panic
(modeled `none`) when it is not; contents of at most 1 MiB — including
exactly 1 MiB, where the original claim's "at least" fails, see the
counterexample — are returned whole with `truncated=false`. -/
theorem C8_fs_read_truncation (text : List Char) :
    (∀ cut, utf8Len text > MAX_SIZE → sliceBytes? MAX_SIZE text = some cut →
      execute_read_no_range text = some ⟨cut, "utf-8", true⟩ ∧
        utf8Len cut = MAX_SIZE ∧ ∃ rest, text = cut ++ rest) ∧
    (utf8Len text > MAX_SIZE → sliceBytes? MAX_SIZE text = none →
      execute_read_no_range text = none) ∧
    (utf8Len text ≤ MAX_SIZE →
      execute_read_no_range text = some ⟨text, "utf-8", false⟩) := by
  refine ⟨?_, ?_, ?_⟩
  · intro cut hgt hslice
    obtain ⟨hlen, rest, hrest⟩ := sliceBytes?_spec hslice
    exact ⟨by simp [execute_read_no_range, hgt, hslice], hlen, rest, hrest⟩
  · intro hgt hnone
    simp [execute_read_no_range, hgt, hnone]
  · intro hle
    have hng : ¬ utf8Len text > MAX_SIZE := by omega
    simp [execute_read_no_range, hng]

/-- Counterexample to C8 as stated: a file of exactly 1 MiB (`2^20` bytes,
"at least 1 MiB") is returned whole with `truncated=false`, because the code
tests `len > MAX_SIZE`, not `len ≥ MAX_SIZE`. -/
theorem C8_fs_read_truncation_counterexample :
    execute_read_no_range (List.replicate (1024 * 1024) 'a')
      = some ⟨List.replicate (1024 * 1024) 'a', "utf-8", false⟩ := by
  have h : utf8Len (List.replicate (1024 * 1024) 'a') = 1024 * 1024 :=
    utf8Len_replicate_a _
  have hng : ¬ utf8Len (List.replicate (1024 * 1024) 'a') > MAX_SIZE := by
    rw [h]; unfold MAX_SIZE; omega
  unfold execute_read_no_range
  rw [if_neg hng]

/-- Witness for C8 at concrete files: 1 MiB+1 of ASCII truncates to its
first 1 MiB; 1 MiB−1 of ASCII followed by a two-byte character panics (byte
1 MiB splits the character); a 3-byte file is returned whole. -/
theorem C8_fs_read_truncation_witness :
    (utf8Len (List.replicate (MAX_SIZE + 1) 'a') > MAX_SIZE ∧
      sliceBytes? MAX_SIZE (List.replicate (MAX_SIZE + 1) 'a')
        = some (List.replicate MAX_SIZE 'a') ∧
      (execute_read_no_range (List.replicate (MAX_SIZE + 1) 'a')
          = some ⟨List.replicate MAX_SIZE 'a', "utf-8", true⟩ ∧
        utf8Len (List.replicate MAX_SIZE 'a') = MAX_SIZE ∧
        ∃ rest, List.replicate (MAX_SIZE + 1) 'a'
          = List.replicate MAX_SIZE 'a' ++ rest)) ∧
    (utf8Len (List.replicate (MAX_SIZE - 1) 'a' ++ ['é']) > MAX_SIZE ∧
      sliceBytes? MAX_SIZE (List.replicate (MAX_SIZE - 1) 'a' ++ ['é']) = none ∧
      execute_read_no_range (List.replicate (MAX_SIZE - 1) 'a' ++ ['é']) = none) ∧
    (utf8Len (List.replicate 3 'a') ≤ MAX_SIZE ∧
      execute_read_no_range (List.replicate 3 'a')
        = some ⟨List.replicate 3 'a', "utf-8", false⟩) := by
  have h1a : utf8Len (List.replicate (MAX_SIZE + 1) 'a') > MAX_SIZE := by
    rw [utf8Len_replicate_a]; omega
  have h1b : sliceBytes? MAX_SIZE (List.replicate (MAX_SIZE + 1) 'a')
      = some (List.replicate MAX_SIZE 'a') :=
    sliceBytes?_replicate_a MAX_SIZE (MAX_SIZE + 1) (by omega)
  have h2a : utf8Len (List.replicate (MAX_SIZE - 1) 'a' ++ ['é']) > MAX_SIZE := by
    rw [utf8Len_append, utf8Len_replicate_a,
      show utf8Len ['é'] = 2 from rfl]
    unfold MAX_SIZE
    omega
  have h2b : sliceBytes? MAX_SIZE (List.replicate (MAX_SIZE - 1) 'a' ++ ['é'])
      = none := by
    rw [sliceBytes?_append_replicate (MAX_SIZE - 1) MAX_SIZE ['é'] (by omega)]
    rw [show MAX_SIZE - (MAX_SIZE - 1) = 1 from by unfold MAX_SIZE; omega]
    rfl
  have h3a : utf8Len (List.replicate 3 'a') ≤ MAX_SIZE := by
    rw [utf8Len_replicate_a]; unfold MAX_SIZE; omega
  exact ⟨⟨h1a, h1b,
      (C8_fs_read_truncation (List.replicate (MAX_SIZE + 1) 'a')).1
        (List.replicate MAX_SIZE 'a') h1a h1b⟩,
    ⟨h2a, h2b,
      (C8_fs_read_truncation (List.replicate (MAX_SIZE - 1) 'a' ++ ['é'])).2.1
        h2a h2b⟩,
    ⟨h3a, (C8_fs_read_truncation (List.replicate 3 'a')).2.2 h3a⟩⟩

/-! ## Provider fallback (`agent_logic.rs::MultiModelAgent::http_post`)

The network is modeled as the outcome each configured provider would give to
the POST: a transport error, a non-2xx HTTP status, a 2xx response that
fails to decode, or a decoded `ChatCompletionResponse`.  The loop walks the
config/outcome pairs exactly as the Rust `for` loop does, recording
`last_error` and emitting `Error` events. -/

structure ModelConfig where
  base_url : String
  api_key : String
  model : String
  name : String
deriving DecidableEq

structure TokenUsageResponse where
  prompt_tokens : Int
  completion_tokens : Int
  total_tokens : Int
deriving DecidableEq

structure FunctionCall where
  name : String
  arguments : String
deriving DecidableEq

structure ToolCall where
  id : String
  type_ : String
  function : FunctionCall
deriving DecidableEq

structure ChatMessageResp where
  role : String
  content : Option String
  tool_calls : Option (List ToolCall)
deriving DecidableEq

structure Choice where
  finish_reason : Option String
  message : Option ChatMessageResp
deriving DecidableEq

structure ChatCompletionResponse where
  id : String
  model : String
  usage : Option TokenUsageResponse
  choices : List Choice
deriving DecidableEq

inductive AgentError where
  | network (msg : String)
  | configuration (msg : String)
  | processing (msg : String)
  | unavailable (msg : String)
deriving DecidableEq

/-- What one attempt against a provider does: `send()` fails, the status is
not 2xx, the 2xx body fails to decode, or the body parses. -/
inductive AttemptOutcome where
  | transportError (msg : String)
  | httpFailure (status bodyText : String)
  | decodeError (msg : String)
  | success (resp : ChatCompletionResponse)
deriving DecidableEq

def AttemptOutcome.isSuccess : AttemptOutcome → Bool
  | .success _ => true
  | _ => false

/-- The `last_error` string recorded for a failed attempt. -/
def attemptErrorMsg (c : ModelConfig) : AttemptOutcome → String
  | .transportError e => c.name ++ " request error: " ++ e
  | .httpFailure status text => c.name ++ " HTTP " ++ status ++ ": " ++ text
  | .decodeError e => c.name ++ " decode error: " ++ e
  | .success _ => ""

/-- The loop body of `http_post`: iterate over configs (paired with the
outcome the network gives each one), accumulating `last_error` and the
emitted `Error` event messages. -/
def http_post_go : List (ModelConfig × AttemptOutcome) → Nat → Option String →
    List String → (Except AgentError ChatCompletionResponse) × List String
  | [], _, last_error, events =>
    (.error (.network (last_error.getD "All model providers failed")), events)
  | (c, outcome) :: rest, i, _last_error, events =>
    match outcome with
    | .transportError e =>
      http_post_go rest (i + 1) (some (attemptErrorMsg c (.transportError e)))
        (events ++ ["Failed to connect to " ++ c.name ++ ", trying next provider..."])
    | .httpFailure status text =>
      http_post_go rest (i + 1) (some (attemptErrorMsg c (.httpFailure status text)))
        (events ++ [c.name ++ " returned " ++ status ++ ", trying next provider..."])
    | .decodeError e =>
      http_post_go rest (i + 1) (some (attemptErrorMsg c (.decodeError e))) events
    | .success parsed =>
      if i > 0 then
        (.ok parsed, events ++ ["Successfully using " ++ c.name ++ " after " ++
          toString i ++ " failed attempts"])
      else (.ok parsed, events)

/-- `MultiModelAgent::http_post` over the modeled network: the result and
the emitted `Error` event messages. -/
def http_post (attempts : List (ModelConfig × AttemptOutcome)) :
    (Except AgentError ChatCompletionResponse) × List String :=
  http_post_go attempts 0 none []

/-- `msg` mentions `name` as a substring. -/
def mentions (name msg : String) : Prop :=
  ∃ pre suf, msg.toList = pre ++ name.toList ++ suf

theorem http_post_go_all_fail (attempts : List (ModelConfig × AttemptOutcome))
    (lastp : ModelConfig × AttemptOutcome)
    (hfail : ∀ p ∈ attempts, p.2.isSuccess = false)
    (hlast : attempts.getLast? = some lastp) :
    ∀ i le ev, (http_post_go attempts i le ev).1
      = .error (.network (attemptErrorMsg lastp.1 lastp.2)) := by
  induction attempts with
  | nil => simp at hlast
  | cons p rest ih =>
    intro i le ev
    obtain ⟨c, outcome⟩ := p
    have hp : outcome.isSuccess = false := hfail (c, outcome) (by simp)
    cases rest with
    | nil =>
      simp only [List.getLast?_singleton, Option.some.injEq] at hlast
      subst hlast
      cases outcome with
      | transportError e => simp [http_post_go]
      | httpFailure s t => simp [http_post_go]
      | decodeError e => simp [http_post_go]
      | success r => simp [AttemptOutcome.isSuccess] at hp
    | cons q rest' =>
      have hlast' : (q :: rest').getLast? = some lastp := by
        simpa [List.getLast?_cons_cons] using hlast
      have ihq := ih (fun p hp => hfail p (List.mem_cons_of_mem _ hp)) hlast'
      cases outcome with
      | transportError e =>
        rw [http_post_go]
        exact ihq _ _ _
      | httpFailure s t =>
        rw [http_post_go]
        exact ihq _ _ _
      | decodeError e =>
        rw [http_post_go]
        exact ihq _ _ _
      | success r => simp [AttemptOutcome.isSuccess] at hp

/-- C5: with configs `[A, B]`, if `A` fails with a transport error or a
non-2xx status and `B` succeeds with parsed response `r`, the POST returns
`r` and the event stream contains an `Error` entry naming `A`; and if every
configured provider fails, the call returns `AgentError::Network` carrying
the last recorded error. -/
theorem C5_provider_fallback (A B : ModelConfig)
    (r : ChatCompletionResponse) (oA : AttemptOutcome)
    (hA : (∃ e, oA = .transportError e) ∨ (∃ s t, oA = .httpFailure s t)) :
    ((http_post [(A, oA), (B, .success r)]).1 = .ok r ∧
      ∃ msg ∈ (http_post [(A, oA), (B, .success r)]).2, mentions A.name msg) ∧
    (∀ attempts lastp, (∀ p ∈ attempts, p.2.isSuccess = false) →
      attempts.getLast? = some lastp →
      (http_post attempts).1
        = .error (.network (attemptErrorMsg lastp.1 lastp.2))) := by
  constructor
  · rcases hA with ⟨e, rfl⟩ | ⟨s, t, rfl⟩
    · refine ⟨rfl, "Failed to connect to " ++ A.name ++ ", trying next provider...",
        by simp [http_post, http_post_go], ?_⟩
      exact ⟨"Failed to connect to ".toList, ", trying next provider...".toList,
        by simp⟩
    · refine ⟨rfl, A.name ++ " returned " ++ s ++ ", trying next provider...",
        by simp [http_post, http_post_go], ?_⟩
      exact ⟨[], (" returned " ++ s ++ ", trying next provider...").toList,
        by simp⟩
  · intro attempts lastp hfail hlast
    exact http_post_go_all_fail attempts lastp hfail hlast 0 none []

/-- Witness for C5: OpenRouter times out with an HTTP 502, Vercel succeeds;
and a two-failure run returns `Network` with the second error message. -/
theorem C5_provider_fallback_witness :
    ((http_post [(⟨"u1", "k1", "m1", "OpenRouter"⟩,
        .httpFailure "502" "bad gateway"),
      (⟨"u2", "k2", "m2", "Vercel AI Gateway"⟩,
        .success ⟨"id1", "m2", none, []⟩)]).1 = .ok ⟨"id1", "m2", none, []⟩ ∧
      ∃ msg ∈ (http_post [(⟨"u1", "k1", "m1", "OpenRouter"⟩,
        .httpFailure "502" "bad gateway"),
      (⟨"u2", "k2", "m2", "Vercel AI Gateway"⟩,
        .success ⟨"id1", "m2", none, []⟩)]).2, mentions "OpenRouter" msg) ∧
    (http_post [(⟨"u1", "k1", "m1", "OpenRouter"⟩, .transportError "refused"),
      (⟨"u2", "k2", "m2", "Vercel AI Gateway"⟩, .httpFailure "500" "oops")]).1
      = .error (.network ("Vercel AI Gateway" ++ " HTTP " ++ "500" ++ ": " ++ "oops")) :=
  ⟨(C5_provider_fallback ⟨"u1", "k1", "m1", "OpenRouter"⟩
      ⟨"u2", "k2", "m2", "Vercel AI Gateway"⟩ ⟨"id1", "m2", none, []⟩
      (.httpFailure "502" "bad gateway")
      (Or.inr ⟨"502", "bad gateway", rfl⟩)).1,
   (C5_provider_fallback ⟨"u1", "k1", "m1", "OpenRouter"⟩
      ⟨"u2", "k2", "m2", "Vercel AI Gateway"⟩ ⟨"id1", "m2", none, []⟩
      (.httpFailure "502" "bad gateway")
      (Or.inr ⟨"502", "bad gateway", rfl⟩)).2
      [(⟨"u1", "k1", "m1", "OpenRouter"⟩, .transportError "refused"),
       (⟨"u2", "k2", "m2", "Vercel AI Gateway"⟩, .httpFailure "500" "oops")]
      (⟨"u2", "k2", "m2", "Vercel AI Gateway"⟩, .httpFailure "500" "oops")
      (by decide) rfl⟩

/-! ## Session messages and chat persistence (`session.rs`)

`ChatMessage` / `ToolMessageInfo` with their serde-derived JSON
representations: unit enum variants serialize to their variant-name string,
`SystemTime` to `{secs_since_epoch, nanos_since_epoch}`, `Option` to
null-or-value (so `Some(Value::Null)` collapses to `None` on reload).
`save` writes the serialized message vector; `load_into` parses it back and
replaces an empty history with the welcome system message. -/

inductive MessageRole where
  | user | agent | system | error | tool
deriving DecidableEq

inductive ToolStatus where
  | running | completed | failed
deriving DecidableEq

/-- `ToolName` from `events.rs`. -/
inductive ToolName where
  | fsRead | fsSearch | fsWrite | fsApplyPatch | fsFind | shellExec | codeSymbols
deriving DecidableEq

structure ToolMessageInfo where
  id : String
  tool : ToolName
  summary : String
  args : Option Json
  start_time : Nat × Nat
  status : ToolStatus
  stdout : String
  stderr : String
  result : Option Json

structure ChatMessage where
  role : MessageRole
  content : String
  timestamp_secs : Nat
  tool_info : Option ToolMessageInfo

def MessageRole.toJson : MessageRole → Json
  | .user => .str "User"
  | .agent => .str "Agent"
  | .system => .str "System"
  | .error => .str "Error"
  | .tool => .str "Tool"

def MessageRole.fromJson? : Json → Option MessageRole
  | .str "User" => some .user
  | .str "Agent" => some .agent
  | .str "System" => some .system
  | .str "Error" => some .error
  | .str "Tool" => some .tool
  | _ => none

def ToolStatus.toJson : ToolStatus → Json
  | .running => .str "Running"
  | .completed => .str "Completed"
  | .failed => .str "Failed"

def ToolStatus.fromJson? : Json → Option ToolStatus
  | .str "Running" => some .running
  | .str "Completed" => some .completed
  | .str "Failed" => some .failed
  | _ => none

def ToolName.toJson : ToolName → Json
  | .fsRead => .str "FsRead"
  | .fsSearch => .str "FsSearch"
  | .fsWrite => .str "FsWrite"
  | .fsApplyPatch => .str "FsApplyPatch"
  | .fsFind => .str "FsFind"
  | .shellExec => .str "ShellExec"
  | .codeSymbols => .str "CodeSymbols"

def ToolName.fromJson? : Json → Option ToolName
  | .str "FsRead" => some .fsRead
  | .str "FsSearch" => some .fsSearch
  | .str "FsWrite" => some .fsWrite
  | .str "FsApplyPatch" => some .fsApplyPatch
  | .str "FsFind" => some .fsFind
  | .str "ShellExec" => some .shellExec
  | .str "CodeSymbols" => some .codeSymbols
  | _ => none

def asStr : Json → Option String
  | .str s => some s
  | _ => none

def asNat : Json → Option Nat
  | .num n => if n < 0 then none else some n.toNat
  | _ => none

def systemTimeToJson (t : Nat × Nat) : Json :=
  .obj [("secs_since_epoch", .num t.1), ("nanos_since_epoch", .num t.2)]

def systemTimeFromJson? (j : Json) : Option (Nat × Nat) := do
  let s ← getField j "secs_since_epoch" >>= asNat
  let n ← getField j "nanos_since_epoch" >>= asNat
  pure (s, n)

def optToJson {α : Type} (f : α → Json) : Option α → Json
  | none => .null
  | some x => f x

def optFromJson {α : Type} (f : Json → Option α) : Json → Option (Option α)
  | .null => some none
  | v => (f v).map some

def ToolMessageInfo.toJson (ti : ToolMessageInfo) : Json :=
  .obj
    [ ("id", .str ti.id)
    , ("tool", ti.tool.toJson)
    , ("summary", .str ti.summary)
    , ("args", optToJson (fun v => v) ti.args)
    , ("start_time", systemTimeToJson ti.start_time)
    , ("status", ti.status.toJson)
    , ("stdout", .str ti.stdout)
    , ("stderr", .str ti.stderr)
    , ("result", optToJson (fun v => v) ti.result)
    ]

def ToolMessageInfo.fromJson? (j : Json) : Option ToolMessageInfo := do
  let id ← getField j "id" >>= asStr
  let tool ← getField j "tool" >>= ToolName.fromJson?
  let summary ← getField j "summary" >>= asStr
  let args ← getField j "args" >>= optFromJson (fun v => some v)
  let start_time ← getField j "start_time" >>= systemTimeFromJson?
  let status ← getField j "status" >>= ToolStatus.fromJson?
  let stdout ← getField j "stdout" >>= asStr
  let stderr ← getField j "stderr" >>= asStr
  let result ← getField j "result" >>= optFromJson (fun v => some v)
  pure ⟨id, tool, summary, args, start_time, status, stdout, stderr, result⟩

def ChatMessage.toJson (m : ChatMessage) : Json :=
  .obj
    [ ("role", m.role.toJson)
    , ("content", .str m.content)
    , ("timestamp_secs", .num m.timestamp_secs)
    , ("tool_info", optToJson ToolMessageInfo.toJson m.tool_info)
    ]

def ChatMessage.fromJson? (j : Json) : Option ChatMessage := do
  let role ← getField j "role" >>= MessageRole.fromJson?
  let content ← getField j "content" >>= asStr
  let ts ← getField j "timestamp_secs" >>= asNat
  let ti ← getField j "tool_info" >>= optFromJson ToolMessageInfo.fromJson?
  pure ⟨role, content, ts, ti⟩

/-- `Session::save`: the JSON document written to the history file. -/
def save (messages : List ChatMessage) : Json :=
  .arr (messages.map ChatMessage.toJson)

def messagesFromJson (j : Json) : Option (List ChatMessage) :=
  match j with
  | .arr es => es.mapM ChatMessage.fromJson?
  | _ => none

/-- The welcome message `load_into` appends when the loaded history is
empty. -/
def welcome_message (ts : Nat) : ChatMessage :=
  ⟨.system, "Welcome to Grok Code! Type your message and press Enter.", ts, none⟩

/-- `Session::load_into`: read and parse the history file (modeled as the
JSON document it holds, `none` when absent), replace the in-memory messages,
and seed an empty history with the welcome system message. -/
def load_into (file : Option Json) (now_ts : Nat) :
    Except String (List ChatMessage) :=
  match file with
  | none => .error "No history file found"
  | some j =>
    match messagesFromJson j with
    | none => .error "failed to parse history"
    | some msgs =>
      if msgs.isEmpty then .ok [welcome_message now_ts] else .ok msgs

/-- `save()` then `load_into()` on the same (default) history path. -/
def save_then_load (messages : List ChatMessage) (now_ts : Nat) :
    Except String (List ChatMessage) :=
  load_into (some (save messages)) now_ts

/-- serde collapses `Some(Value::Null)` to `null`, which reloads as `None`:
a message survives the round trip exactly when neither `args` nor `result`
of its tool info is `Some(Null)`. -/
def jsonNotNullB : Option Json → Bool
  | some .null => false
  | _ => true

def msgOk (m : ChatMessage) : Bool :=
  match m.tool_info with
  | none => true
  | some ti => jsonNotNullB ti.args && jsonNotNullB ti.result

theorem messageRole_fromJson_toJson (r : MessageRole) :
    MessageRole.fromJson? r.toJson = some r := by
  cases r <;> rfl

theorem toolStatus_fromJson_toJson (s : ToolStatus) :
    ToolStatus.fromJson? s.toJson = some s := by
  cases s <;> rfl

theorem toolName_fromJson_toJson (t : ToolName) :
    ToolName.fromJson? t.toJson = some t := by
  cases t <;> rfl

theorem asNat_num (n : Nat) : asNat (.num n) = some n := by
  simp [asNat]

theorem systemTime_fromJson_toJson (t : Nat × Nat) :
    systemTimeFromJson? (systemTimeToJson t) = some t := by
  obtain ⟨s, n⟩ := t
  have hs : ¬ ((s : Int) < 0) := by omega
  have hn : ¬ ((n : Int) < 0) := by omega
  simp [systemTimeToJson, systemTimeFromJson?, getField, getField.go, asNat,
    hs, hn]

theorem optFromJson_not_null {α : Type} (f : Json → Option α) (v : Json)
    (hv : v ≠ .null) : optFromJson f v = (f v).map some := by
  cases v <;> first | exact absurd rfl hv | rfl

theorem optFromJson_id_round (x : Option Json) (hx : jsonNotNullB x = true) :
    optFromJson (fun v => some v) (optToJson (fun v => v) x) = some x := by
  cases x with
  | none => rfl
  | some v => cases v with
    | null => simp [jsonNotNullB] at hx
    | bool b => rfl
    | num n => rfl
    | str s => rfl
    | arr es => rfl
    | obj fs => rfl

theorem toolMessageInfo_fromJson_toJson (ti : ToolMessageInfo)
    (ha : jsonNotNullB ti.args = true) (hr : jsonNotNullB ti.result = true) :
    ToolMessageInfo.fromJson? ti.toJson = some ti := by
  obtain ⟨id, tool, summary, args, st, status, so, se, res⟩ := ti
  simp only [ToolMessageInfo.toJson, ToolMessageInfo.fromJson?] at *
  simp [getField, getField.go, asStr, asNat_num,
    toolName_fromJson_toJson, toolStatus_fromJson_toJson,
    systemTime_fromJson_toJson, optFromJson_id_round _ ha,
    optFromJson_id_round _ hr]

theorem ToolMessageInfo.toJson_ne_null (ti : ToolMessageInfo) :
    ti.toJson ≠ .null := by
  simp [ToolMessageInfo.toJson]

theorem chatMessage_fromJson_toJson (m : ChatMessage) (h : msgOk m = true) :
    ChatMessage.fromJson? m.toJson = some m := by
  obtain ⟨role, content, ts, ti⟩ := m
  cases ti with
  | none =>
    simp [ChatMessage.toJson, ChatMessage.fromJson?, getField, getField.go,
      asStr, asNat_num, messageRole_fromJson_toJson, optToJson, optFromJson]
  | some t =>
    simp only [msgOk, jsonNotNullB, Bool.and_eq_true] at h
    obtain ⟨ha, hr⟩ := h
    have htmi := toolMessageInfo_fromJson_toJson t ha hr
    simp [ChatMessage.toJson, ChatMessage.fromJson?, getField, getField.go,
      asStr, asNat_num, messageRole_fromJson_toJson, optToJson,
      optFromJson_not_null _ _ (ToolMessageInfo.toJson_ne_null t), htmi]

theorem messages_fromJson_toJson (msgs : List ChatMessage)
    (hok : ∀ m ∈ msgs, msgOk m = true) :
    (msgs.map ChatMessage.toJson).mapM ChatMessage.fromJson? = some msgs := by
  induction msgs with
  | nil => rfl
  | cons m rest ih =>
    have hm := chatMessage_fromJson_toJson m (hok m (by simp))
    have hrest := ih (fun x hx => hok x (by simp [hx]))
    rw [List.map_cons, List.mapM_cons, hm, hrest]
    rfl

/-- C6 (amended): `save()` followed by `load_into()` on the default history
path restores the saved message vector, provided it is nonempty (an empty
saved history loads as the single welcome system message, see the
counterexample) and no tool message carries `Some(Null)` args/result (which
serde collapses to `None`). -/
theorem C6_save_load_round_trip (messages : List ChatMessage) (now_ts : Nat)
    (hne : messages ≠ []) (hok : ∀ m ∈ messages, msgOk m = true) :
    save_then_load messages now_ts = .ok messages := by
  have hparse := messages_fromJson_toJson messages hok
  simp only [save_then_load, load_into, save, messagesFromJson, hparse]
  cases messages with
  | nil => exact absurd rfl hne
  | cons m rest => rfl

/-- Counterexample to C6 as stated: saving an empty message vector and
loading it back yields the singleton welcome message, not the empty vector
that was saved. -/
theorem C6_save_load_counterexample :
    save_then_load [] 0 = .ok [welcome_message 0] ∧
      ([welcome_message 0] : List ChatMessage) ≠ [] :=
  ⟨rfl, by simp⟩

theorem C6_save_load_round_trip_witness :
    (([⟨.user, "hello", 5, none⟩] : List ChatMessage) ≠ []) ∧
    (∀ m ∈ ([⟨.user, "hello", 5, none⟩] : List ChatMessage), msgOk m = true) ∧
    save_then_load [⟨.user, "hello", 5, none⟩] 9
      = .ok [⟨.user, "hello", 5, none⟩] :=
  ⟨by simp, by intro m hm; simp at hm; subst hm; rfl,
   C6_save_load_round_trip [⟨.user, "hello", 5, none⟩] 9 (by simp)
     (by intro m hm; simp at hm; subst hm; rfl)⟩

/-! ## Tool-message lifecycle in the session (`session.rs` handlers)

The session's tool-event handlers, driven by a trace of events.
`handle_tool_begin` appends a tool message with status `Running`; every
other handler updates the most recent tool message with the matching id
(`iter_mut().rev().find(...)` in Rust), and only `handle_tool_end` writes
the status. -/

inductive SEvent where
  | toolBegin (id : String) (tool : ToolName) (summary : String)
      (args : Option Json) (now : Nat × Nat) (ts : Nat)
  | toolEnd (id : String) (ok : Bool)
  | toolStdout (id : String) (chunk : String)
  | toolStderr (id : String) (chunk : String)
  | toolResult (id : String) (payload : Json)
  | toolProgress (id : String) (message : String)

/-- The find predicate used by every handler:
`msg.role == Tool && msg.tool_info.as_ref().map(|ti| ti.id == id).unwrap_or(false)`. -/
def toolMatches (id : String) (m : ChatMessage) : Bool :=
  decide (m.role = .tool) &&
    (match m.tool_info with
     | some ti => decide (ti.id = id)
     | none => false)

/-- Update the rightmost element satisfying `p` (Rust finds it via
`iter_mut().rev().find`). -/
def updateLastMatching (p : ChatMessage → Bool) (f : ChatMessage → ChatMessage) :
    List ChatMessage → List ChatMessage
  | [] => []
  | m :: rest =>
    if rest.any p then m :: updateLastMatching p f rest
    else if p m then f m :: rest
    else m :: rest

/-- `Session::handle_tool_begin` via `add_tool_message`. -/
def handle_tool_begin (s : List ChatMessage) (id : String) (tool : ToolName)
    (summary : String) (args : Option Json) (now : Nat × Nat) (ts : Nat) :
    List ChatMessage :=
  s ++ [⟨.tool, "Agent ran " ++ summary, ts,
        some ⟨id, tool, summary, args, now, .running, "", "", none⟩⟩]

def setStatus (ok : Bool) (m : ChatMessage) : ChatMessage :=
  match m.tool_info with
  | some ti =>
    { m with tool_info := some { ti with status := if ok then .completed else .failed } }
  | none => m

def appendStdout (chunk : String) (m : ChatMessage) : ChatMessage :=
  match m.tool_info with
  | some ti => { m with tool_info := some { ti with stdout := ti.stdout ++ chunk } }
  | none => m

def appendStderr (chunk : String) (m : ChatMessage) : ChatMessage :=
  match m.tool_info with
  | some ti => { m with tool_info := some { ti with stderr := ti.stderr ++ chunk } }
  | none => m

def setResult (payload : Json) (m : ChatMessage) : ChatMessage :=
  match m.tool_info with
  | some ti => { m with tool_info := some { ti with result := some payload } }
  | none => m

def handle_tool_end (s : List ChatMessage) (id : String) (ok : Bool) :
    List ChatMessage :=
  updateLastMatching (toolMatches id) (setStatus ok) s

def handle_tool_stdout (s : List ChatMessage) (id : String) (chunk : String) :
    List ChatMessage :=
  updateLastMatching (toolMatches id) (appendStdout chunk) s

def handle_tool_stderr (s : List ChatMessage) (id : String) (chunk : String) :
    List ChatMessage :=
  updateLastMatching (toolMatches id) (appendStderr chunk) s

def handle_tool_result (s : List ChatMessage) (id : String) (payload : Json) :
    List ChatMessage :=
  updateLastMatching (toolMatches id) (setResult payload) s

/-- `handle_tool_progress` locates the message but stores no state. -/
def handle_tool_progress (s : List ChatMessage) (id : String) (_message : String) :
    List ChatMessage :=
  updateLastMatching (toolMatches id) (fun m => m) s

def step (s : List ChatMessage) : SEvent → List ChatMessage
  | .toolBegin id tool summary args now ts =>
    handle_tool_begin s id tool summary args now ts
  | .toolEnd id ok => handle_tool_end s id ok
  | .toolStdout id chunk => handle_tool_stdout s id chunk
  | .toolStderr id chunk => handle_tool_stderr s id chunk
  | .toolResult id payload => handle_tool_result s id payload
  | .toolProgress id message => handle_tool_progress s id message

/-- The session message list after processing a trace of tool events. -/
def runEvents (tr : List SEvent) : List ChatMessage :=
  tr.foldl step []

def isEndFor (id : String) : SEvent → Bool
  | .toolEnd i _ => decide (i = id)
  | _ => false

/-- Number of `ToolEnd` events for a given call id in a trace; one tool
invocation emits exactly one. -/
def endCount (tr : List SEvent) (id : String) : Nat :=
  tr.countP (isEndFor id)

theorem updateLastMatching_get? (p : ChatMessage → Bool)
    (f : ChatMessage → ChatMessage) (s : List ChatMessage) (i : Nat) :
    (updateLastMatching p f s).get? i = s.get? i ∨
      ∃ m, s.get? i = some m ∧ p m = true ∧
        (updateLastMatching p f s).get? i = some (f m) := by
  induction s generalizing i with
  | nil => left; rfl
  | cons m rest ih =>
    by_cases hany : rest.any p
    · cases i with
      | zero => left; simp [updateLastMatching, hany]
      | succ j =>
        rcases ih j with h | ⟨x, hx, hpx, hfx⟩
        · left; simpa [updateLastMatching, hany] using h
        · right
          exact ⟨x, by simpa using hx, hpx,
            by simpa [updateLastMatching, hany] using hfx⟩
    · by_cases hm : p m
      · cases i with
        | zero =>
          right
          exact ⟨m, rfl, hm, by simp [updateLastMatching, hany, hm]⟩
        | succ j => left; simp [updateLastMatching, hany, hm]
      · left; simp [updateLastMatching, hany, hm]

theorem toolMatches_id {id : String} {m : ChatMessage} {ti : ToolMessageInfo}
    (h : toolMatches id m = true) (hti : m.tool_info = some ti) : ti.id = id := by
  simp [toolMatches, hti] at h
  exact h.2

theorem toolMatches_some {id : String} {m : ChatMessage}
    (h : toolMatches id m = true) : ∃ ti, m.tool_info = some ti := by
  cases hti : m.tool_info with
  | none => simp [toolMatches, hti] at h
  | some ti => exact ⟨ti, rfl⟩

/-- The session invariant relating message statuses to the processed trace:
a tool message can only be out of `Running` if its id has already received a
`ToolEnd`. -/
def StatusInv (proc : List SEvent) (s : List ChatMessage) : Prop :=
  ∀ i m ti, s.get? i = some m → m.tool_info = some ti →
    ti.status ≠ .running → 1 ≤ endCount proc ti.id

theorem endCount_append (tr₁ tr₂ : List SEvent) (id : String) :
    endCount (tr₁ ++ tr₂) id = endCount tr₁ id + endCount tr₂ id := by
  simp [endCount, List.countP_append]

theorem endCount_take_le (tr : List SEvent) (k : Nat) (id : String) :
    endCount (tr.take k) id ≤ endCount tr id :=
  List.Sublist.countP_le _ (List.take_sublist k tr)

theorem StatusInv_updateLast_preserving {proc : List SEvent}
    {s : List ChatMessage} (hinv : StatusInv proc s) (e : SEvent)
    (p : ChatMessage → Bool) (f : ChatMessage → ChatMessage)
    (hpres : ∀ m ti, m.tool_info = some ti →
      ∃ ti', (f m).tool_info = some ti' ∧ ti'.status = ti.status ∧ ti'.id = ti.id)
    (hnone : ∀ m, m.tool_info = none → f m = m) :
    StatusInv (proc ++ [e]) (updateLastMatching p f s) := by
  have hmono : ∀ id, endCount proc id ≤ endCount (proc ++ [e]) id := by
    intro id
    rw [endCount_append]
    omega
  intro i m' ti' hm' hti' hst'
  rcases updateLastMatching_get? p f s i with h | ⟨m, hm, hpm, hfm⟩
  · exact le_trans (hinv i m' ti' (h ▸ hm') hti' hst') (hmono _)
  · have hm'eq : m' = f m := by
      rw [hfm] at hm'
      exact (Option.some.inj hm').symm
    cases hmi : m.tool_info with
    | none =>
      rw [hm'eq, hnone m hmi, hmi] at hti'
      exact absurd hti' (by simp)
    | some ti =>
      obtain ⟨ti'', hft, hstat, hid⟩ := hpres m ti hmi
      have hteq : ti' = ti'' := by
        rw [hm'eq, hft] at hti'
        exact (Option.some.inj hti').symm
      subst hteq
      have hstr : ti.status ≠ .running := by rw [← hstat]; exact hst'
      have := hinv i m ti hm hmi hstr
      rw [hid]
      exact le_trans this (hmono _)

theorem step_StatusInv {proc : List SEvent} {s : List ChatMessage}
    (hinv : StatusInv proc s) (e : SEvent) :
    StatusInv (proc ++ [e]) (step s e) := by
  cases e with
  | toolBegin id tool summary args now ts =>
    intro i m ti hm hti hst
    by_cases hi : i < s.length
    · have hs : s.get? i = some m := by
        rw [step, handle_tool_begin, List.get?_append hi] at hm
        exact hm
      have hmono : endCount proc ti.id ≤ endCount (proc ++ [.toolBegin id tool summary args now ts]) ti.id := by
        rw [endCount_append]; omega
      exact le_trans (hinv i m ti hs hti hst) hmono
    · rcases Nat.lt_or_ge i (s.length + 1) with hi1 | hi1
      · have hieq : i = s.length := by omega
        subst hieq
        rw [step, handle_tool_begin, List.get?_concat_length] at hm
        cases Option.some.inj hm
        simp at hti
        rw [← hti] at hst
        exact absurd rfl hst
      · rw [step, handle_tool_begin] at hm
        rw [List.get?_eq_none.mpr (by simp; omega)] at hm
        exact absurd hm (by simp)
  | toolEnd id ok =>
    intro i m' ti' hm' hti' hst'
    rcases updateLastMatching_get? (toolMatches id) (setStatus ok) s i with
      h | ⟨m, hm, hpm, hfm⟩
    · have hs : s.get? i = some m' := h ▸ hm'
      have hmono : endCount proc ti'.id ≤ endCount (proc ++ [.toolEnd id ok]) ti'.id := by
        rw [endCount_append]; omega
      exact le_trans (hinv i m' ti' hs hti' hst') hmono
    · obtain ⟨ti, hti⟩ := toolMatches_some hpm
      have hid : ti.id = id := toolMatches_id hpm hti
      have hm'2 : (updateLastMatching (toolMatches id) (setStatus ok) s).get? i
          = some m' := hm'
      have hm'eq : m' = setStatus ok m := by
        rw [hfm] at hm'2
        exact (Option.some.inj hm'2).symm
      have hti'' : m'.tool_info
          = some { ti with status := if ok then .completed else .failed } := by
        rw [hm'eq]
        simp [setStatus, hti]
      have hteq : ti' = { ti with status := if ok then .completed else .failed } := by
        rw [hti''] at hti'
        exact (Option.some.inj hti').symm
      have hidi : ti'.id = id := by rw [hteq]; exact hid
      rw [hidi, endCount_append]
      have : endCount [SEvent.toolEnd id ok] id = 1 := by
        simp [endCount, List.countP_cons, isEndFor]
      omega
  | toolStdout id chunk =>
    exact StatusInv_updateLast_preserving hinv _ _ _
      (fun m ti h => ⟨{ ti with stdout := ti.stdout ++ chunk },
        by simp [appendStdout, h], rfl, rfl⟩)
      (fun m h => by simp [appendStdout, h])
  | toolStderr id chunk =>
    exact StatusInv_updateLast_preserving hinv _ _ _
      (fun m ti h => ⟨{ ti with stderr := ti.stderr ++ chunk },
        by simp [appendStderr, h], rfl, rfl⟩)
      (fun m h => by simp [appendStderr, h])
  | toolResult id payload =>
    exact StatusInv_updateLast_preserving hinv _ _ _
      (fun m ti h => ⟨{ ti with result := some payload },
        by simp [setResult, h], rfl, rfl⟩)
      (fun m h => by simp [setResult, h])
  | toolProgress id message =>
    exact StatusInv_updateLast_preserving hinv _ _ _
      (fun m ti h => ⟨ti, h, rfl, rfl⟩)
      (fun m h => rfl)

theorem runEvents_go_inv : ∀ (pending proc : List SEvent) (s : List ChatMessage),
    StatusInv proc s → StatusInv (proc ++ pending) (pending.foldl step s) := by
  intro pending
  induction pending with
  | nil => intro proc s h; simpa using h
  | cons e rest ih =>
    intro proc s h
    have h2 := ih (proc ++ [e]) (step s e) (step_StatusInv h e)
    simpa [List.append_assoc] using h2

theorem runEvents_inv (tr : List SEvent) : StatusInv tr (runEvents tr) := by
  have h0 : StatusInv [] ([] : List ChatMessage) := by
    intro i m ti h
    simp at h
  have := runEvents_go_inv tr [] [] h0
  simpa [runEvents] using this

theorem runEvents_take_succ {tr : List SEvent} {k : Nat} {e : SEvent}
    (he : tr.get? k = some e) :
    runEvents (tr.take (k + 1)) = step (runEvents (tr.take k)) e := by
  have he' : tr[k]? = some e := by rw [← List.get?_eq_getElem?]; exact he
  have : tr.take (k + 1) = tr.take k ++ [e] := by
    rw [List.take_succ, he']
    rfl
  rw [this, runEvents, List.foldl_append]
  rfl

/-- C7: in a session trace in which each tool invocation id receives at most
one `ToolEnd` event, a tool message's status starts as `Running` when the
tool begins, and the only status transitions are `Running → Completed`
(tool end with `ok=true`) and `Running → Failed` (`ok=false`); `Completed`
and `Failed` are terminal — any step either preserves a message's status or
is the unique `ToolEnd` for its id moving it out of `Running`. -/
theorem C7_tool_status_state_machine (tr : List SEvent)
    (hdis : ∀ id, endCount tr id ≤ 1) :
    (∀ (s : List ChatMessage) id tool summary args now ts,
      (step s (.toolBegin id tool summary args now ts)).get? s.length
        = some ⟨.tool, "Agent ran " ++ summary, ts,
            some ⟨id, tool, summary, args, now, .running, "", "", none⟩⟩) ∧
    (∀ k, k < tr.length → ∀ i m m' ti ti',
      (runEvents (tr.take k)).get? i = some m → m.tool_info = some ti →
      (runEvents (tr.take (k + 1))).get? i = some m' → m'.tool_info = some ti' →
      ti'.status = ti.status ∨
        (ti.status = .running ∧ ∃ ok, tr.get? k = some (.toolEnd ti.id ok) ∧
          ti'.status = (if ok then .completed else .failed))) := by
  constructor
  · intro s id tool summary args now ts
    rw [step, handle_tool_begin]
    exact List.get?_concat_length _ _
  · intro k hk i m m' ti ti' hm hti hm' hti'
    obtain ⟨e, he⟩ : ∃ e, tr.get? k = some e := ⟨_, List.get?_eq_get hk⟩
    rw [runEvents_take_succ he] at hm'
    have hibound : i < (runEvents (tr.take k)).length :=
      (List.get?_eq_some.mp hm).1
    cases e with
    | toolBegin id tool summary args now ts =>
      rw [step, handle_tool_begin, List.get?_append hibound] at hm'
      rw [hm] at hm'
      cases Option.some.inj hm'
      rw [hti] at hti'
      cases Option.some.inj hti'
      exact Or.inl rfl
    | toolEnd id ok =>
      have hm'2 : (updateLastMatching (toolMatches id) (setStatus ok)
          (runEvents (tr.take k))).get? i = some m' := hm'
      rcases updateLastMatching_get? (toolMatches id) (setStatus ok)
          (runEvents (tr.take k)) i with h | ⟨x, hx, hpx, hfx⟩
      · rw [h, hm] at hm'2
        cases Option.some.inj hm'2
        rw [hti] at hti'
        cases Option.some.inj hti'
        exact Or.inl rfl
      · rw [hm] at hx
        cases Option.some.inj hx
        have hid : ti.id = id := toolMatches_id hpx hti
        rw [hfx] at hm'2
        cases Option.some.inj hm'2
        have hsts : (setStatus ok m).tool_info
            = some { ti with status := if ok then .completed else .failed } := by
          simp [setStatus, hti]
        rw [hsts] at hti'
        cases Option.some.inj hti'
        right
        refine ⟨?_, ok, by rw [hid]; exact he, rfl⟩
        by_contra hrun
        have h1 := runEvents_inv (tr.take k) i m ti hm hti hrun
        have h2 : endCount (tr.take (k + 1)) ti.id ≥ 2 := by
          have he' : tr[k]? = some (SEvent.toolEnd id ok) := by
            rw [← List.get?_eq_getElem?]; exact he
          have : tr.take (k + 1) = tr.take k ++ [SEvent.toolEnd id ok] := by
            rw [List.take_succ, he']
            rfl
          rw [this, endCount_append]
          have : endCount [SEvent.toolEnd id ok] ti.id = 1 := by
            simp [endCount, List.countP_cons, isEndFor, hid]
          omega
        have h3 := endCount_take_le tr (k + 1) ti.id
        have h4 := hdis ti.id
        omega
    | toolStdout id chunk =>
      have hm'2 : (updateLastMatching (toolMatches id) (appendStdout chunk)
          (runEvents (tr.take k))).get? i = some m' := hm'
      rcases updateLastMatching_get? (toolMatches id) (appendStdout chunk)
          (runEvents (tr.take k)) i with h | ⟨x, hx, hpx, hfx⟩
      · rw [h, hm] at hm'2
        cases Option.some.inj hm'2
        rw [hti] at hti'
        cases Option.some.inj hti'
        exact Or.inl rfl
      · rw [hm] at hx
        cases Option.some.inj hx
        rw [hfx] at hm'2
        cases Option.some.inj hm'2
        have hsts : (appendStdout chunk m).tool_info
            = some { ti with stdout := ti.stdout ++ chunk } := by
          simp [appendStdout, hti]
        rw [hsts] at hti'
        cases Option.some.inj hti'
        exact Or.inl rfl
    | toolStderr id chunk =>
      have hm'2 : (updateLastMatching (toolMatches id) (appendStderr chunk)
          (runEvents (tr.take k))).get? i = some m' := hm'
      rcases updateLastMatching_get? (toolMatches id) (appendStderr chunk)
          (runEvents (tr.take k)) i with h | ⟨x, hx, hpx, hfx⟩
      · rw [h, hm] at hm'2
        cases Option.some.inj hm'2
        rw [hti] at hti'
        cases Option.some.inj hti'
        exact Or.inl rfl
      · rw [hm] at hx
        cases Option.some.inj hx
        rw [hfx] at hm'2
        cases Option.some.inj hm'2
        have hsts : (appendStderr chunk m).tool_info
            = some { ti with stderr := ti.stderr ++ chunk } := by
          simp [appendStderr, hti]
        rw [hsts] at hti'
        cases Option.some.inj hti'
        exact Or.inl rfl
    | toolResult id payload =>
      have hm'2 : (updateLastMatching (toolMatches id) (setResult payload)
          (runEvents (tr.take k))).get? i = some m' := hm'
      rcases updateLastMatching_get? (toolMatches id) (setResult payload)
          (runEvents (tr.take k)) i with h | ⟨x, hx, hpx, hfx⟩
      · rw [h, hm] at hm'2
        cases Option.some.inj hm'2
        rw [hti] at hti'
        cases Option.some.inj hti'
        exact Or.inl rfl
      · rw [hm] at hx
        cases Option.some.inj hx
        rw [hfx] at hm'2
        cases Option.some.inj hm'2
        have hsts : (setResult payload m).tool_info
            = some { ti with result := some payload } := by
          simp [setResult, hti]
        rw [hsts] at hti'
        cases Option.some.inj hti'
        exact Or.inl rfl
    | toolProgress id message =>
      have hm'2 : (updateLastMatching (toolMatches id) (fun m => m)
          (runEvents (tr.take k))).get? i = some m' := hm'
      rcases updateLastMatching_get? (toolMatches id) (fun m => m)
          (runEvents (tr.take k)) i with h | ⟨x, hx, hpx, hfx⟩
      · rw [h, hm] at hm'2
        cases Option.some.inj hm'2
        rw [hti] at hti'
        cases Option.some.inj hti'
        exact Or.inl rfl
      · rw [hm] at hx
        cases Option.some.inj hx
        rw [hfx] at hm'2
        cases Option.some.inj hm'2
        have hti'' : m.tool_info = some ti' := hti'
        rw [hti] at hti''
        cases Option.some.inj hti''
        exact Or.inl rfl

/-- Witness for C7 on the two-event trace `[ToolBegin "t1", ToolEnd "t1"
ok=true]`: the begun message starts `Running`, and the step across the end
event satisfies the transition disjunction. -/
theorem C7_tool_status_state_machine_witness :
    (step [] (.toolBegin "t1" .shellExec "run" none (0, 0) 1)).get? 0
      = some ⟨.tool, "Agent ran " ++ "run", 1,
          some ⟨"t1", .shellExec, "run", none, (0, 0), .running, "", "", none⟩⟩ ∧
    ((⟨"t1", .shellExec, "run", none, (0, 0), .completed, "", "", none⟩ :
        ToolMessageInfo).status
      = (⟨"t1", .shellExec, "run", none, (0, 0), .running, "", "", none⟩ :
        ToolMessageInfo).status ∨
      ((⟨"t1", .shellExec, "run", none, (0, 0), .running, "", "", none⟩ :
          ToolMessageInfo).status = .running ∧
        ∃ ok, ([.toolBegin "t1" .shellExec "run" none (0, 0) 1,
            .toolEnd "t1" true] : List SEvent).get? 1
          = some (.toolEnd (⟨"t1", .shellExec, "run", none, (0, 0), .running,
              "", "", none⟩ : ToolMessageInfo).id ok) ∧
          (⟨"t1", .shellExec, "run", none, (0, 0), .completed, "", "", none⟩ :
            ToolMessageInfo).status = (if ok then .completed else .failed))) := by
  have hdis : ∀ id, endCount
      [.toolBegin "t1" .shellExec "run" none (0, 0) 1, .toolEnd "t1" true] id ≤ 1 := by
    intro id
    by_cases h : ("t1" : String) = id <;>
      simp [endCount, List.countP_cons, isEndFor, h]
  refine ⟨?_, ?_⟩
  · exact (C7_tool_status_state_machine
      [.toolBegin "t1" .shellExec "run" none (0, 0) 1, .toolEnd "t1" true]
      hdis).1 [] "t1" .shellExec "run" none (0, 0) 1
  · exact (C7_tool_status_state_machine
      [.toolBegin "t1" .shellExec "run" none (0, 0) 1, .toolEnd "t1" true]
      hdis).2 1 (by decide) 0
      ⟨.tool, "Agent ran " ++ "run", 1,
        some ⟨"t1", .shellExec, "run", none, (0, 0), .running, "", "", none⟩⟩
      ⟨.tool, "Agent ran " ++ "run", 1,
        some ⟨"t1", .shellExec, "run", none, (0, 0), .completed, "", "", none⟩⟩
      ⟨"t1", .shellExec, "run", none, (0, 0), .running, "", "", none⟩
      ⟨"t1", .shellExec, "run", none, (0, 0), .completed, "", "", none⟩
      rfl rfl rfl rfl

end GrokCode
